import Mathlib

/-!
# Canonical DAG formatter (`zfmt/dag.go`)

A shallow embedding of the canonical text serializer for the dataflow DAG:
the expression / operator / source data model of package `dag`, the line and
indentation engine the formatter is built on, and the recursive renderers
`canonDAG.expr`, `canonDAG.binary`, `canonDAG.next` and `canonDAG.op`.
The query-flag glue of `cli/queryflags` and the function `nest_dotted` of
`runtime/expr/function` follow the formatter.  All definitions come first; the
results about them follow, package by package.

Stateful Go methods on `*canonDAG` become functions `canonDAG → canonDAG`.
-/

namespace zfmt

/-! ## Data model (package `dag`, `astzed`, `order`) -/

/-- Expressions `dag.Expr`.  `nil` is the nil interface value; `unknown kind`
stands for a value of any dynamic type the formatter has no case for, `kind`
being the text `%T` prints for it.  `Primitive` is `astzed.Primitive` (type
tag and text), `TypeValue` is `astzed.TypeValue`, whose type is kept as the
text the type renderer produces for it. -/
inductive Expr where
  | nil : Expr
  | Agg (Name : String) (Expr_ : Expr) (Where : Expr) : Expr
  | Primitive (Type_ : String) (Text : String) : Expr
  | UnaryExpr (Op : String) (Operand : Expr) : Expr
  | BinaryExpr (Op : String) (LHS : Expr) (RHS : Expr) : Expr
  | Conditional (Cond : Expr) (Then : Expr) (Else : Expr) : Expr
  | Call (Name : String) (Args : List Expr) : Expr
  | Search (Value : String) : Expr
  | This (Path : List String) : Expr
  | Var (Name : String) : Expr
  | Literal (Value : String) : Expr
  | TypeValue (Value : String) : Expr
  | unknown (kind : String) : Expr

/-- Test `e != nil` on an expression slot. -/
def Expr.isNil : Expr → Bool
  | .nil => true
  | _ => false

/-- An assignment `dag.Assignment{LHS, RHS}`; `LHS` may be nil. -/
structure Assignment where
  LHS : Expr
  RHS : Expr

/-- Sort direction `order.Which`. -/
inductive Which where
  | Asc
  | Desc
  deriving DecidableEq

/-- The text of `order.Which.String()`. -/
def Which.string : Which → String
  | .Asc => "asc"
  | .Desc => "desc"

/-- Data sources `dag.Source`.  Identifiers are kept as the text `%s` prints
for them; a `File` layout is `none` when `Layout.IsNil()` and otherwise the
text `%s` prints for it.  `Reader` is `*kernel.Reader`; `unknown kind` is any
other dynamic type. -/
inductive Source where
  | File (Path : String) (Format : String) (Layout : Option String)
  | HTTP (URL : String)
  | Pool (ID : String)
  | PoolMeta (ID : String) (Meta : String)
  | CommitMeta (Pool : String) (Commit : String) (Meta : String)
  | LakeMeta (Meta : String)
  | Pass
  | Reader
  | unknown (kind : String)

/-- A pipeline-scoped constant `dag.Def{Name, Expr}`. -/
structure Def where
  Name : String
  Expr : Expr

/-- A function declaration `dag.Func{Name, Params, Expr}`. -/
structure Func where
  Name : String
  Params : List String
  Expr : Expr

mutual
/-- Operators `dag.Op`.  `nil` is the nil interface value, `Sequential none`
a nil `*dag.Sequential`, and `unknown kind` a value of a dynamic type the
formatter has no case for. -/
inductive Op where
  | nil : Op
  | Sequential (p : Option Sequential) : Op
  | Parallel (Ops : List Op) : Op
  | Switch (Expr : Expr) (Cases : List Case) : Op
  | Merge (Expr : Expr) (Order : Which) : Op
  | Summarize (Aggs : List Assignment) (Keys : List Assignment) (Limit : Int)
      (PartialsIn : Bool) (PartialsOut : Bool) (InputSortDir : Int) : Op
  | Cut (Args : List Assignment) : Op
  | Drop (Args : List Expr) : Op
  | Sort (Args : List Expr) (Order : Which) (NullsFirst : Bool) : Op
  | Head (Count : Int) : Op
  | Tail (Count : Int) : Op
  | Uniq (Cflag : Bool) : Op
  | Pass : Op
  | Filter (Expr : Expr) : Op
  | Top (Args : List Expr) (Limit : Int) (Flush : Bool) : Op
  | Put (Args : List Assignment) : Op
  | Rename (Args : List Assignment) : Op
  | Fuse : Op
  | Join (LeftKey : Expr) (RightKey : Expr) (Args : List Assignment) : Op
  | From (Trunks : List Trunk) : Op
  | Over (Exprs : List Expr) : Op
  | Yield (Exprs : List Expr) : Op
  | unknown (kind : String) : Op
/-- The struct `dag.Sequential{Consts, Funcs, Ops}`. -/
inductive Sequential where
  | mk (Consts : List Def) (Funcs : List Func) (Ops : List Op) : Sequential
/-- One case of a switch, `dag.Case{Expr, Op}`; `Expr` nil marks the default. -/
inductive Case where
  | mk (Expr : Expr) (Op : Op) : Case
/-- One trunk of a `From`, `dag.Trunk{Source, Seq, Pushdown}`. -/
inductive Trunk where
  | mk (Source : Source) (Seq : Option Sequential) (Pushdown : Op) : Trunk
end

/-- The field `Ops` of a `dag.Sequential`. -/
def Sequential.Ops : Sequential → List Op
  | .mk _ _ ops => ops

/-- Test `p != nil` on an operator slot of interface type. -/
def Op.isNil : Op → Bool
  | .nil => true
  | _ => false

/-! ## The line and indentation engine -/

/-- Modelled from the spec: the struct `formatter` embedded in `canonZed`
(its declaration is outside the source files).  `Builder` is the text emitted
so far, `indent` the current indentation in spaces, `tab` the indentation
step, `needRet` the pending-newline flag and `needTab` the flag saying that the
current line still lacks its indentation. -/
structure formatter where
  Builder : String
  indent : Int
  tab : Int
  needTab : Bool
  needRet : Bool

/-- A run of `n` spaces (none when `n` is not positive), as the loop
`for k := 0; k < n; k++` writes it. -/
def spaces (n : Int) : String :=
  String.mk (List.replicate n.toNat ' ')

/-- Modelled from the spec: `formatter.writeTab`, writing the indentation of
the current nesting depth. -/
def formatter.writeTab (f : formatter) : formatter :=
  { f with Builder := f.Builder ++ spaces f.indent, needTab := false }

/-- Modelled from the spec: `formatter.flush`; a pending newline is emitted and
the new line is marked as still lacking its indentation, which is written
once text follows. -/
def formatter.flush (f : formatter) : formatter :=
  if f.needRet then
    { f with Builder := f.Builder ++ "\n", needTab := true, needRet := false }
  else f

/-- Modelled from the spec: `formatter.write`, appending text after the pending
newline and the indentation the line still lacks.  A formatted call
`write(format, args...)` is `write` of the text `Sprintf` gives. -/
def formatter.write (f : formatter) (s : String) : formatter :=
  let f := f.flush
  let f := if f.needTab then f.writeTab else f
  { f with Builder := f.Builder ++ s }

/-- Modelled from the spec: `formatter.open` called with a text, writing the
text and then increasing the nesting depth by one step. -/
def formatter.open (f : formatter) (s : String) : formatter :=
  let f := f.write s
  { f with indent := f.indent + f.tab }

/-- Modelled from the spec: `formatter.open` called without text, `open()`: the
nesting depth increases by one step and nothing is written, so that a newline
pending at the call is emitted later, with the indentation of the new depth. -/
def formatter.open_ (f : formatter) : formatter :=
  { f with indent := f.indent + f.tab }

/-- Modelled from the spec: `formatter.close`, decreasing the nesting depth by
one step. -/
def formatter.close (f : formatter) : formatter :=
  { f with indent := f.indent - f.tab }

/-- Modelled from the spec: `formatter.ret`, recording a pending newline. -/
def formatter.ret (f : formatter) : formatter :=
  { f with needRet := true }

/-- Modelled from the spec: `formatter.space`. -/
def formatter.space (f : formatter) : formatter :=
  f.write " "

/-- The formatter state `canonDAG`: the embedded `canonZed` (which wraps the
`formatter`) and the flags `head` and `first`. -/
structure canonDAG where
  formatter : formatter
  head : Bool
  first : Bool

/-- Promoted method `write` of the embedded formatter. -/
def canonDAG.write (c : canonDAG) (s : String) : canonDAG :=
  { c with formatter := c.formatter.write s }

/-- Promoted method `ret`. -/
def canonDAG.ret (c : canonDAG) : canonDAG :=
  { c with formatter := c.formatter.ret }

/-- Promoted method `flush`. -/
def canonDAG.flush (c : canonDAG) : canonDAG :=
  { c with formatter := c.formatter.flush }

/-- Promoted method `writeTab`. -/
def canonDAG.writeTab (c : canonDAG) : canonDAG :=
  { c with formatter := c.formatter.writeTab }

/-- Promoted method `space`. -/
def canonDAG.space (c : canonDAG) : canonDAG :=
  { c with formatter := c.formatter.space }

/-- Promoted method `String` of the builder. -/
def canonDAG.string (c : canonDAG) : String :=
  c.formatter.Builder

/-- The method `canonDAG.open`, called with a text. -/
def canonDAG.open (c : canonDAG) (s : String) : canonDAG :=
  { c with formatter := c.formatter.open s }

/-- The method `canonDAG.open`, called without text: `c.open()`. -/
def canonDAG.open_ (c : canonDAG) : canonDAG :=
  { c with formatter := c.formatter.open_ }

/-- The method `canonDAG.close`. -/
def canonDAG.close (c : canonDAG) : canonDAG :=
  { c with formatter := c.formatter.close }

/-- The method `canonDAG.maybewrite`. -/
def canonDAG.maybewrite (c : canonDAG) (s : String) (do_ : Bool) : canonDAG :=
  if do_ then c.write s else c

/-! ## Helpers of the embedded `canonZed` -/

/-- Modelled from the spec: `canonZed.literal` (outside the source files), which
writes the text-encoded value of a typed scalar constant. -/
def canonDAG.literal (c : canonDAG) (_typ : String) (text : String) : canonDAG :=
  c.write text

/-- Modelled from the spec: `canonZed.fieldpath` (outside the source files).  A
path with zero steps is the implicit receiver and renders as the token `this`;
otherwise the steps are written separated by dots, so that `this.a.b` renders
as `a.b`. -/
def canonDAG.fieldpath (c : canonDAG) (path : List String) : canonDAG :=
  match path with
  | [] => c.write "this"
  | _ => c.write (".".intercalate path)

/-- Modelled from the spec: `canonZed.typ` (outside the source files), which
writes the text of a type. -/
def canonDAG.typ (c : canonDAG) (value : String) : canonDAG :=
  c.write value

/-- Modelled from the spec: the precedence table behind `needsparens` (outside
the source files).  A larger number binds tighter: the unary context, then the
arithmetic operators, the comparisons, and below them the class of `in`, `and`
and `or`; a context that is no operator (the empty context of a top-level
expression, a function name) has the lowest rank. -/
def precedence (op : String) : Nat :=
  if op = "not" then 8
  else if op = "^" then 7
  else if op = "*" ∨ op = "/" ∨ op = "%" then 6
  else if op = "+" ∨ op = "-" then 5
  else if op = "<" ∨ op = "<=" ∨ op = ">" ∨ op = ">=" ∨ op = "==" ∨ op = "!=" then 4
  else if op = "in" then 3
  else if op = "and" then 2
  else if op = "or" then 1
  else 0

/-- Modelled from the spec: `needsparens(parent, op)` (outside the source
files): a binary expression is wrapped in parentheses iff its operator's
precedence is lower than that of the enclosing operator context.  The function
sees the two operators only, not the side of the operand, and writes no
parentheses at equal precedence. -/
def needsparens (parent : String) (op : String) : Bool :=
  precedence op < precedence parent

/-! ## Expressions -/

/-- The function `isDAGThis`. -/
def isDAGThis : Expr → Bool
  | .This [] => true
  | _ => false

/-- The function `isDAGTrue`. -/
def isDAGTrue : Expr → Bool
  | .Primitive typ text => typ = "bool" && text = "true"
  | _ => false

mutual
/-- The method `canonDAG.expr`; the case of a binary expression is the body of
`canonDAG.binary`, which `expr` calls with the same context. -/
def canonDAG.expr (c : canonDAG) : Expr → String → canonDAG
  | .nil, _ => c.write "null"
  | .Agg name e w, _ =>
    let c := c.write (name ++ "(")
    let c := if !e.isNil then c.expr e "" else c
    let c := c.write ")"
    if !w.isNil then
      let c := c.write " where "
      c.expr w ""
    else c
  | .Primitive typ text, _ => c.literal typ text
  | .UnaryExpr op operand, _ =>
    let c := c.write op
    c.expr operand "not"
  | .BinaryExpr op lhs rhs, parent =>
    if op = "." then
      let c := if !isDAGThis lhs then (c.expr lhs "").write "." else c
      c.expr rhs ""
    else if op = "[" then
      let c := if isDAGThis lhs then c.write "." else c.expr lhs ""
      let c := c.write "["
      let c := c.expr rhs ""
      c.write "]"
    else if op = "in" ∨ op = "and" ∨ op = "or" then
      let parens := needsparens parent op
      let c := c.maybewrite "(" parens
      let c := c.expr lhs op
      let c := c.write (" " ++ op ++ " ")
      let c := c.expr rhs op
      c.maybewrite ")" parens
    else
      let parens := needsparens parent op
      let c := c.maybewrite "(" parens
      let c := c.expr lhs op
      let c := c.write op
      let c := c.expr rhs op
      c.maybewrite ")" parens
  | .Conditional cond thn els, _ =>
    let c := c.write "("
    let c := c.expr cond ""
    let c := c.write ") ? "
    let c := c.expr thn ""
    let c := c.write " : "
    c.expr els ""
  | .Call name args, _ =>
    let c := c.write (name ++ "(")
    let c := c.exprsFrom 0 args
    c.write ")"
  | .Search value, _ => c.write ("search(" ++ value ++ ")")
  | .This path, _ => c.fieldpath path
  | .Var name, _ => c.write name
  | .Literal value, _ => c.write value
  | .TypeValue value, _ =>
    let c := c.write "type<"
    let c := c.typ value
    c.write ">"
  | .unknown kind, _ =>
    let c := c.open ("(unknown expr " ++ kind ++ ")")
    let c := c.close
    c.ret
/-- The loop of `canonDAG.exprs` from index `k` on. -/
def canonDAG.exprsFrom (c : canonDAG) (k : Nat) : List Expr → canonDAG
  | [] => c
  | e :: es =>
    let c := if k > 0 then c.write ", " else c
    let c := c.expr e ""
    c.exprsFrom (k + 1) es
end

/-- The method `canonDAG.exprs`. -/
def canonDAG.exprs (c : canonDAG) (exprs : List Expr) : canonDAG :=
  c.exprsFrom 0 exprs

/-- The method `canonDAG.binary`, on the fields of the binary expression. -/
def canonDAG.binary (c : canonDAG) (op : String) (lhs rhs : Expr) (parent : String) :
    canonDAG :=
  c.expr (.BinaryExpr op lhs rhs) parent

/-- The loop of `canonDAG.assignments` from index `k` on. -/
def canonDAG.assignmentsFrom (c : canonDAG) (k : Nat) : List Assignment → canonDAG
  | [] => c
  | a :: as =>
    let c := if k > 0 then c.write "," else c
    let c := if !a.LHS.isNil then (c.expr a.LHS "").write ":=" else c
    let c := c.expr a.RHS ""
    c.assignmentsFrom (k + 1) as

/-- The method `canonDAG.assignments`. -/
def canonDAG.assignments (c : canonDAG) (assignments : List Assignment) : canonDAG :=
  c.assignmentsFrom 0 assignments

/-- The initial state built by `DAG` and `DAGExpr`. -/
def canonDAG.init : canonDAG :=
  { formatter := { Builder := "", indent := 0, tab := 2, needTab := false, needRet := false },
    head := true, first := true }

/-- The function `DAGExpr`. -/
def DAGExpr (e : Expr) : String :=
  let d := canonDAG.init
  let d := d.expr e ""
  let d := d.flush
  d.string

/-! ## Operators -/

/-- The function `source`. -/
def source : Source → String
  | .File path format layout =>
    let s := "file " ++ path
    let s := if format ≠ "" then s ++ (" format " ++ format) else s
    match layout with
    | some l => s ++ (" order " ++ l)
    | none => s
  | .HTTP url => "get " ++ url
  | .Pool id => "pool " ++ id
  | .PoolMeta id m => "pool " ++ id ++ ":" ++ m
  | .CommitMeta pool commit m => "pool " ++ pool ++ "@" ++ commit ++ ":" ++ m
  | .LakeMeta m => ":" ++ m
  | .Pass => "pass"
  | .Reader => "(internal reader)"
  | .unknown kind => "unknown source " ++ kind

/-- The method `canonDAG.next`. -/
def canonDAG.next (c : canonDAG) : canonDAG :=
  let c := if c.first then { c with first := false } else c.write "\n"
  let c := { c with formatter := { c.formatter with needRet := false } }
  let c := c.writeTab
  if c.head then { c with head := false } else c.write "| "

/-- The loop over `p.Consts` in the `Sequential` case of `canonDAG.op`. -/
def canonDAG.consts (c : canonDAG) : List Def → canonDAG
  | [] => c
  | d :: ds =>
    let c := c.write ("const " ++ d.Name ++ " = ")
    let c := c.expr d.Expr ""
    let c := c.ret
    c.consts ds

/-- The loop over `f.Params` in the `Sequential` case of `canonDAG.op`. -/
def canonDAG.params (c : canonDAG) (i : Nat) : List String → canonDAG
  | [] => c
  | x :: xs =>
    let c := if i ≠ 0 then c.write ", " else c
    let c := c.write x
    c.params (i + 1) xs

/-- The loop over `p.Funcs` in the `Sequential` case of `canonDAG.op`. -/
def canonDAG.funcs (c : canonDAG) : List Func → canonDAG
  | [] => c
  | f :: fs =>
    let c := c.write ("func " ++ f.Name ++ "(")
    let c := c.params 0 f.Params
    let c := c.open "): ("
    let c := c.ret
    let c := c.expr f.Expr f.Name
    let c := c.close
    let c := c.ret
    let c := c.flush
    let c := c.write ")\n"
    c.funcs fs

mutual
/-- The method `canonDAG.op`. -/
def canonDAG.op (c : canonDAG) : Op → canonDAG
  | .Sequential none => c
  | .Sequential (some p) => c.sequential p
  | .Parallel ops =>
    let c := c.next
    let c := c.open "fork ("
    let c := c.parallelOps ops
    let c := c.close
    let c := c.ret
    let c := c.flush
    c.write ")"
  | .Switch e cases =>
    let c := c.next
    let c := c.open "switch "
    let c := if !e.isNil then (c.expr e "").write " " else c
    let c := c.open "("
    let c := c.switchCases cases
    let c := c.close
    let c := c.ret
    let c := c.flush
    c.write ")"
  | .Merge e order =>
    let c := c.next
    let c := c.write "merge "
    let c := c.expr e ""
    c.write (":" ++ order.string)
  | .Summarize aggs keys limit partialsIn partialsOut inputSortDir =>
    let c := c.next
    let c := c.open "summarize"
    let c := if partialsIn then c.write " partials-in" else c
    let c := if partialsOut then c.write " partials-out" else c
    let c := if inputSortDir ≠ 0 then c.write (" sort-dir " ++ toString inputSortDir) else c
    let c := c.ret
    let c := c.open_
    let c := c.assignments aggs
    let c := if keys.length ≠ 0 then (c.write " by ").assignments keys else c
    let c := if limit ≠ 0 then c.write (" -with limit " ++ toString limit) else c
    let c := c.close
    c.close
  | .Cut args =>
    let c := c.next
    let c := c.write "cut "
    c.assignments args
  | .Drop args =>
    let c := c.next
    let c := c.write "drop "
    c.exprs args
  | .Sort args order nullsFirst =>
    let c := c.next
    let c := c.write "sort"
    let c := if order = Which.Desc then c.write " -r" else c
    let c := if nullsFirst then c.write " -nulls first" else c
    if args.length > 0 then c.space.exprs args else c
  | .Head count =>
    let c := c.next
    c.write ("head " ++ toString count)
  | .Tail count =>
    let c := c.next
    c.write ("tail " ++ toString count)
  | .Uniq cflag =>
    let c := c.next
    let c := c.write "uniq"
    if cflag then c.write " -c" else c
  | .Pass =>
    let c := c.next
    c.write "pass"
  | .Filter e =>
    let c := c.next
    let c := c.open "where "
    let c := if isDAGTrue e then c.write "*" else c.expr e ""
    c.close
  | .Top args limit flush =>
    let c := c.next
    let c := c.write ("top limit=" ++ toString limit ++ " flush=" ++ toString flush ++ " ")
    c.exprs args
  | .Put args =>
    let c := c.next
    let c := c.write "put "
    c.assignments args
  | .Rename args =>
    let c := c.next
    let c := c.write "rename "
    c.assignments args
  | .Fuse =>
    let c := c.next
    c.write "fuse"
  | .Join leftKey rightKey args =>
    let c := c.next
    let c := c.open "join on "
    let c := c.expr leftKey ""
    let c := c.write "="
    let c := c.expr rightKey ""
    let c := if args.length ≠ 0 then (c.write " ").assignments args else c
    c.close
  | .From trunks =>
    let c := c.next
    let c := c.open "from ("
    let c := c.fromTrunks trunks
    let c := c.ret
    let c := c.close
    c.write ")"
  | .Over exprs =>
    let c := c.next
    let c := c.write "over "
    c.exprs exprs
  | .Yield exprs =>
    let c := c.next
    let c := c.write "yield "
    c.exprs exprs
  | .nil =>
    let c := c.open "unknown proc: <nil>"
    c.close
  | .unknown kind =>
    let c := c.open ("unknown proc: " ++ kind)
    c.close
/-- The `Sequential` case of `canonDAG.op` on a non-nil pointer. -/
def canonDAG.sequential (c : canonDAG) : Sequential → canonDAG
  | .mk consts funcs ops =>
    let c := c.consts consts
    let c := c.funcs funcs
    c.sequentialOps ops
/-- The loop over `p.Ops` in the `Sequential` case. -/
def canonDAG.sequentialOps (c : canonDAG) : List Op → canonDAG
  | [] => c
  | p :: ps => (c.op p).sequentialOps ps
/-- The loop over `p.Ops` in the `Parallel` case. -/
def canonDAG.parallelOps (c : canonDAG) : List Op → canonDAG
  | [] => c
  | p :: ps =>
    let c := c.ret
    let c := c.write "=>"
    let c := c.open_
    let c := { c with head := true }
    let c := c.op p
    let c := c.close
    c.parallelOps ps
/-- The loop over `p.Cases` in the `Switch` case. -/
def canonDAG.switchCases (c : canonDAG) : List Case → canonDAG
  | [] => c
  | .mk e p :: ks =>
    let c := c.ret
    let c := if !e.isNil then (c.write "case ").expr e "" else c.write "default"
    let c := c.write " =>"
    let c := c.open_
    let c := { c with head := true }
    let c := c.op p
    let c := c.close
    c.switchCases ks
/-- The loop over `p.Trunks` in the `From` case. -/
def canonDAG.fromTrunks (c : canonDAG) : List Trunk → canonDAG
  | [] => c
  | .mk src seq pushdown :: ts =>
    let c := c.ret
    let c := if !pushdown.isNil then
        let c := { c with head := true }
        let c := c.open "(pushdown"
        let c := c.op pushdown
        let c := c.write ")"
        let c := c.close
        c.ret
      else c
    let c := c.write (source src)
    let c := match seq with
      | some s =>
        if s.Ops.length ≠ 0 then
          let c := c.open_
          let c := { c with head := true }
          let c := c.write " =>"
          let c := c.sequential s
          c.close
        else c
      | none => c
    c.fromTrunks ts
end

/-- The function `DAG`. -/
def DAG (op : Op) : String :=
  let d := canonDAG.init
  let d := d.op op
  let d := d.flush
  d.string

/-! ## Auxiliary notions used in the statements -/

/-- The text a flush adds to the builder in a state with indentation `n` and
flags `needTab`, `needRet`: a pending newline with the indentation of the new
line, or the indentation alone. -/
def pend (n : Int) (nT nR : Bool) : String :=
  if nR then "\n" ++ spaces n else if nT then spaces n else ""

mutual
/-- No node of unrecognized kind occurs in the expression. -/
def Expr.recognized : Expr → Bool
  | .nil => true
  | .Agg _ e w => e.recognized && w.recognized
  | .Primitive _ _ => true
  | .UnaryExpr _ e => e.recognized
  | .BinaryExpr _ l r => l.recognized && r.recognized
  | .Conditional a b c => a.recognized && b.recognized && c.recognized
  | .Call _ args => Expr.recognizedAll args
  | .Search _ => true
  | .This _ => true
  | .Var _ => true
  | .Literal _ => true
  | .TypeValue _ => true
  | .unknown _ => false
/-- No node of unrecognized kind occurs in the expressions of the list. -/
def Expr.recognizedAll : List Expr → Bool
  | [] => true
  | e :: es => e.recognized && Expr.recognizedAll es
end

/-- Atomic operands: a variable or a field path. -/
def Expr.isAtom : Expr → Bool
  | .Var _ => true
  | .This _ => true
  | _ => false

/-- The effect of rendering `e` in any context and at any indentation is to
flush what is pending, append a text and leave a pending-newline flag, both
independent of the rest of the state. -/
def ExprNF (e : Expr) : Prop :=
  ∀ (p : String) (n : Int), ∃ (T : String) (r : Bool),
    ∀ (B : String) (t : Int) (nT nR h f : Bool),
      canonDAG.expr ⟨⟨B, n, t, nT, nR⟩, h, f⟩ e p
        = ⟨⟨B ++ (pend n nT nR ++ T), n, t, false, r⟩, h, f⟩

/-- The effect of rendering `e` is to flush what is pending and append a text
that depends on neither the state nor the indentation, leaving no newline
pending. -/
def ExprText (e : Expr) : Prop :=
  ∀ (p : String), ∃ (T : String),
    ∀ (B : String) (n t : Int) (nT nR h f : Bool),
      canonDAG.expr ⟨⟨B, n, t, nT, nR⟩, h, f⟩ e p
        = ⟨⟨B ++ (pend n nT nR ++ T), n, t, false, false⟩, h, f⟩

/-- A pipeline `Sequential{Ops: ops}` without declarations. -/
def pipeline (ops : List Op) : Op :=
  .Sequential (some (.mk [] [] ops))

mutual
/-- The number of `Switch` operators in an operator tree. -/
def Op.switches : Op → Nat
  | .Sequential none => 0
  | .Sequential (some s) => s.switches
  | .Parallel ops => Op.switchesOps ops
  | .Switch _ cases => 1 + Op.switchesCases cases
  | .From trunks => Op.switchesTrunks trunks
  | _ => 0
/-- The number of `Switch` operators in a pipeline. -/
def Sequential.switches : Sequential → Nat
  | .mk _ _ ops => Op.switchesOps ops
/-- The number of `Switch` operators in a list of operators. -/
def Op.switchesOps : List Op → Nat
  | [] => 0
  | p :: ps => p.switches + Op.switchesOps ps
/-- The number of `Switch` operators in the cases of a switch. -/
def Op.switchesCases : List Case → Nat
  | [] => 0
  | .mk _ p :: ks => p.switches + Op.switchesCases ks
/-- The number of `Switch` operators in the trunks of a `From`. -/
def Op.switchesTrunks : List Trunk → Nat
  | [] => 0
  | .mk _ seq pushdown :: ts =>
    pushdown.switches
      + (match seq with
        | some s => s.switches
        | none => 0)
      + Op.switchesTrunks ts
end

/-- The depth bookkeeping of a piece of rendering that contains `k` switches:
the indentation step is kept and the indentation grows by `k` steps. -/
def Deepens (k : Nat) (c c' : canonDAG) : Prop :=
  c'.formatter.tab = c.formatter.tab
    ∧ c'.formatter.indent = c.formatter.indent + c.formatter.tab * k

/-- An assignment whose sides hold no node of unrecognized kind. -/
def Assignment.recognized (a : Assignment) : Bool :=
  a.LHS.recognized && a.RHS.recognized

/-- The single-line operator kinds, over expressions without a node of
unrecognized kind. -/
def Op.singleLine : Op → Bool
  | .Pass => true
  | .Fuse => true
  | .Head _ => true
  | .Tail _ => true
  | .Uniq _ => true
  | .Cut args => args.all Assignment.recognized
  | .Drop args => Expr.recognizedAll args
  | .Put args => args.all Assignment.recognized
  | .Rename args => args.all Assignment.recognized
  | .Sort args _ _ => Expr.recognizedAll args
  | .Top args _ _ => Expr.recognizedAll args
  | .Merge e _ => e.recognized
  | .Filter e => e.recognized
  | .Join l r args => l.recognized && r.recognized && args.all Assignment.recognized
  | .Over exprs => Expr.recognizedAll exprs
  | .Yield exprs => Expr.recognizedAll exprs
  | _ => false

/-- The text of one assignment: `lhs:=rhs`, or `rhs` alone when the left side
is nil. -/
def assignmentText (a : Assignment) : String :=
  if a.LHS.isNil then DAGExpr a.RHS else DAGExpr a.LHS ++ ":=" ++ DAGExpr a.RHS

/-- The texts of a list, each preceded by the separator. -/
def joinTail (sep : String) : List String → String
  | [] => ""
  | a :: as => sep ++ (a ++ joinTail sep as)

/-- The text of `e` rendered below the operator context `parent`; `DAGExpr e`
is the case of the empty context. -/
def exprUnder (e : Expr) (parent : String) : String :=
  ((canonDAG.init.expr e parent).flush).string

/-- The line of one constant declaration. -/
def constText (d : Def) : String :=
  "const " ++ d.Name ++ " = " ++ DAGExpr d.Expr ++ "\n"

/-- The lines of one function declaration. -/
def funcText (f : Func) : String :=
  "func " ++ f.Name ++ "(" ++ ", ".intercalate f.Params ++ "): (\n  "
    ++ exprUnder f.Expr f.Name ++ "\n)\n"

/-- The text `canonDAG.next` writes before an operator: the line break (after
what is pending) unless the operator is the first, the indentation, and the
marker unless the operator heads its pipeline. -/
def lead (f h : Bool) (n : Int) (nT nR : Bool) : String :=
  (if f then "" else pend n nT nR ++ "\n") ++ (spaces n ++ (if h then "" else "| "))

/-- The effect of rendering a single-line operator: the text of `next`, then a
text that does not depend on the state. -/
def OpText (p : Op) : Prop :=
  ∃ T : String, ∀ (B : String) (n t : Int) (nT nR h f : Bool),
    canonDAG.op ⟨⟨B, n, t, nT, nR⟩, h, f⟩ p
      = ⟨⟨B ++ (lead f h n nT nR ++ T), n, t, false, false⟩, false, false⟩

/-- The operators whose rendering ends with text of their own: the single-line
operators over expressions of recognized kinds, the blocks `fork`, `switch` and
`from`, which end with their closing parenthesis, and the operators of
unrecognized kind, which end with their placeholder. -/
def Op.endsWithText (p : Op) : Bool :=
  p.singleLine ||
    match p with
    | .Parallel _ => true
    | .Switch _ _ => true
    | .From _ => true
    | .unknown _ => true
    | .nil => true
    | _ => false

/-- Nothing is pending in the state: a flush would add nothing. -/
def canonDAG.settled (c : canonDAG) : Prop :=
  c.formatter.needRet = false ∧ c.formatter.needTab = false

end zfmt

/-! # Query flags (`cli/queryflags/flags.go`) -/

namespace queryflags

/-- Procs `ast.Proc`, over expressions of type `E` (`ast.Expr`, declared outside
the source files).  `nil` is the nil interface value, `other kind` a proc of
any kind that `isYield` does not look at. -/
inductive Proc (E : Type) where
  | nil : Proc E
  | Sequential (Procs : List (Proc E)) : Proc E
  | Yield (Exprs : List E) : Proc E
  | OpExpr (Expr : E) : Proc E
  | other (kind : String) : Proc E

/-- The struct `Flags`. -/
structure Flags where
  Verbose : Bool
  Stats : Bool
  Includes : List String

/-- What `ParseSourcesAndInputs` calls outside the source files: the test
`cli.FileExists`, `url.Parse` of the standard library (kept as the scheme of
the parsed URL, `none` when parsing fails), `compiler.ParseProc` (the parsed
proc or the error's text) and the tests `zfmt.IsSearch` and `zfmt.IsBool`. -/
structure Env (E : Type) where
  FileExists : String → Bool
  urlParse : String → Option String
  ParseProc : String → List String → Except String (Proc E)
  IsSearch : E → Bool
  IsBool : E → Bool

/-- The function `isYield`. -/
def isYield {E : Type} (env : Env E) : Proc E → Bool
  | .Sequential (op :: _) =>
    match op with
    | .Yield _ => true
    | .OpExpr e => !env.IsSearch e && !env.IsBool e
    | _ => false
  | _ => false

/-- The function `isURLWithKnownScheme`. -/
def isURLWithKnownScheme {E : Type} (env : Env E) (path : String) (schemes : List String) :
    Bool :=
  match env.urlParse path with
  | none => false
  | some scheme => schemes.any (fun s => scheme = s)

/-- The method `Flags.ParseSourcesAndInputs`; the result is the triple of the
remaining paths, the query and the implicit-yield flag, or the text of the
error. -/
def ParseSourcesAndInputs {E : Type} (env : Env E) (f : Flags) (paths : List String) :
    Except String (List String × Proc E × Bool) :=
  let rest (src : String) (paths : List String) : Except String (List String × Proc E × Bool) :=
    match env.ParseProc src f.Includes with
    | .error err => .error err
    | .ok query => .ok (paths, query, false)
  match paths with
  | [] => rest "" []
  | p0 :: ps =>
    if !env.FileExists p0 && !isURLWithKnownScheme env p0 ["http", "https", "s3"] then
      let src := p0
      let paths := ps
      if paths.length = 0 then
        match env.ParseProc src f.Includes with
        | .error _ => .error ("no such file: " ++ src)
        | .ok query =>
          if !isYield env query then .error ("no such file: " ++ src)
          else .ok (paths, query, true)
      else rest src paths
    else rest "" (p0 :: ps)

end queryflags

/-! # The function `nest_dotted` (`runtime/expr/function/nestdotted.go`) -/

namespace function

mutual
/-- Types `zed.Type`, as far as `NestDotted` looks at them: a record type, the
type of error values, a nil `*zed.TypeRecord`, and any other type. -/
inductive ZedType where
  | Record (r : TypeRecord) : ZedType
  | Error : ZedType
  | nilRecord : ZedType
  | other (id : Int) : ZedType
/-- The struct `zed.TypeRecord`: its ID and its columns. -/
inductive TypeRecord where
  | mk (id : Int) (Columns : List Column) : TypeRecord
/-- The struct `zed.Column{Name, Type}`. -/
inductive Column where
  | mk (Name : String) (Type_ : ZedType) : Column
end

/-- The method `TypeRecord.ID`. -/
def TypeRecord.ID : TypeRecord → Int
  | .mk id _ => id

/-- The field `Columns` of a record type. -/
def TypeRecord.Columns : TypeRecord → List Column
  | .mk _ cols => cols

/-- The field `Name` of a column. -/
def Column.Name : Column → String
  | .mk name _ => name

/-- The field `Type` of a column. -/
def Column.Type_ : Column → ZedType
  | .mk _ t => t

/-- Encoded values `zcode.Bytes`, kept as the list of the items that iterating
over them yields. -/
abbrev Bytes := List (List Nat)

/-- The struct `zed.Value{Type, Bytes}`. -/
structure Value where
  Type_ : ZedType
  Bytes : Bytes

/-- The function `zed.TypeRecordOf`: the record type of a type, nil when the
type is no record. -/
def TypeRecordOf : ZedType → Option TypeRecord
  | .Record r => some r
  | _ => none

/-- Splitting of a list of characters at each occurrence of `c`. -/
def splitOn (c : Char) : List Char → List (List Char)
  | [] => [[]]
  | x :: xs =>
    if x = c then [] :: splitOn c xs
    else
      match splitOn c xs with
      | [] => [[x]]
      | p :: ps => (x :: p) :: ps

/-- Modelled from the spec: `field.Dotted` (package `field`, outside the source
files), which splits a dotted name into its parts at each `.`. -/
def Dotted (name : String) : List String :=
  (splitOn '.' name.data).map String.mk

/-- What `NestDotted` calls in package `zed`, outside the source files, for
record builders of type `B`: `zed.NewRecordBuilder` (the builder or the text of
the error), `RecordBuilder.TypedColumns`, `Context.MustLookupTypeRecord`, and
`RecordBuilder.Encode` of the values appended since the last `Reset` (the
encoded record or the text of the error). -/
structure Collab (B : Type) where
  NewRecordBuilder : List (List String) → Except String B
  TypedColumns : B → List ZedType → List Column
  MustLookupTypeRecord : List Column → TypeRecord
  Encode : B → Bytes → Except String Bytes

/-- The struct `NestDotted`: the two caches, keyed by the ID of the input
record type. -/
structure NestDotted (B : Type) where
  builders : Int → Option B
  recordTypes : Int → Option TypeRecord

/-- The function `NewNestDotted`. -/
def NewNestDotted (B : Type) : NestDotted B :=
  { builders := fun _ => none, recordTypes := fun _ => none }

/-- The loop of `lookupBuilderAndType` computing `foundDotted`. -/
def foundDotted (r : TypeRecord) : Bool :=
  r.Columns.any (fun c => (Dotted c.Name).length > 1)

/-- The method `NestDotted.lookupBuilderAndType`: the state after the call and
the builder and type (nil for a shape without dotted names), or the text of the
error. -/
def NestDotted.lookupBuilderAndType {B : Type} (K : Collab B) (n : NestDotted B)
    (r : TypeRecord) : NestDotted B × Except String (Option B × Option TypeRecord) :=
  match n.builders r.ID with
  | some b => (n, .ok (some b, n.recordTypes r.ID))
  | none =>
    let fields := r.Columns.map (fun c => Dotted c.Name)
    let types := r.Columns.map (fun c => c.Type_)
    if !foundDotted r then (n, .ok (none, none))
    else
      match K.NewRecordBuilder fields with
      | .error err => (n, .error err)
      | .ok b =>
        let typ := K.MustLookupTypeRecord (K.TypedColumns b types)
        ({ builders := fun id => if id = r.ID then some b else n.builders id,
           recordTypes := fun id => if id = r.ID then some typ else n.recordTypes id },
          .ok (some b, some typ))

/-- What a call returns to its caller: a value, or a panic with its message. -/
inductive Outcome where
  | returns (v : Value) : Outcome
  | panics (message : String) : Outcome

/-- The error value `zctx.NewErrorf(...)` with the given message. -/
def NewError (message : String) : Value :=
  { Type_ := .Error, Bytes := [message.data.map Char.toNat] }

/-- The value `ctx.NewValue(typ, bytes)` for a `*zed.TypeRecord`. -/
def NewValue (typ : Option TypeRecord) (bytes : Bytes) : Value :=
  match typ with
  | some r => { Type_ := .Record r, Bytes := bytes }
  | none => { Type_ := .nilRecord, Bytes := bytes }

/-- The method `NestDotted.Call`: the state after the call and its outcome.
Indexing an empty `args` and calling `ID` on the nil record type of a value
that is no record panic. -/
def NestDotted.Call {B : Type} (K : Collab B) (n : NestDotted B) (args : List Value) :
    NestDotted B × Outcome :=
  match args with
  | [] => (n, .panics "index out of range")
  | this :: _ =>
    match TypeRecordOf this.Type_ with
    | none => (n, .panics "nil pointer dereference")
    | some r =>
      match n.lookupBuilderAndType K r with
      | (n, .error err) => (n, .returns (NewError ("unflatten: " ++ err)))
      | (n, .ok (none, _)) => (n, .returns this)
      | (n, .ok (some b, typ)) =>
        match K.Encode b this.Bytes with
        | .error err => (n, .panics err)
        | .ok zbytes => (n, .returns (NewValue typ zbytes))

/-- The state after a sequence of calls, each on one value, from the state `n`. -/
def NestDotted.after {B : Type} (K : Collab B) (n : NestDotted B) : List Value → NestDotted B
  | [] => n
  | v :: vs => NestDotted.after K (n.Call K [v]).1 vs

/-- A family of record types in which the ID determines the type, as for the
types of one `zed.Context`. -/
def Interned (U : TypeRecord → Prop) : Prop :=
  ∀ r₁ r₂ : TypeRecord, U r₁ → U r₂ → r₁.ID = r₂.ID → r₁ = r₂

/-- The record-typed values of the list have their types in `U`. -/
def TypesIn (U : TypeRecord → Prop) (vs : List Value) : Prop :=
  ∀ v ∈ vs, ∀ r, TypeRecordOf v.Type_ = some r → U r

/-- The cache holds builders only under the IDs of shapes with dotted names. -/
def NestDotted.keyed {B : Type} (U : TypeRecord → Prop) (n : NestDotted B) : Prop :=
  ∀ r : TypeRecord, U r → n.builders r.ID ≠ none → foundDotted r = true

end function

namespace zfmt

/-! ## The line engine on explicit states -/

@[simp] theorem pend_ff (n : Int) : pend n false false = "" := rfl

theorem fwrite_mk (B : String) (n t : Int) (nT nR : Bool) (s : String) :
    formatter.write ⟨B, n, t, nT, nR⟩ s = ⟨B ++ (pend n nT nR ++ s), n, t, false, false⟩ := by
  cases nT <;> cases nR <;>
    simp [formatter.write, formatter.flush, formatter.writeTab, pend, String.append_assoc]

theorem write_mk (B : String) (n t : Int) (nT nR h f : Bool) (s : String) :
    canonDAG.write ⟨⟨B, n, t, nT, nR⟩, h, f⟩ s = ⟨⟨B ++ (pend n nT nR ++ s), n, t, false, false⟩, h, f⟩ := by
  simp [canonDAG.write, fwrite_mk]

theorem open__mk (B : String) (n t : Int) (nT nR h f : Bool) :
    canonDAG.open_ ⟨⟨B, n, t, nT, nR⟩, h, f⟩ = ⟨⟨B, n + t, t, nT, nR⟩, h, f⟩ := rfl

theorem open_mk (B : String) (n t : Int) (nT nR h f : Bool) (s : String) :
    canonDAG.open ⟨⟨B, n, t, nT, nR⟩, h, f⟩ s = ⟨⟨B ++ (pend n nT nR ++ s), n + t, t, false, false⟩, h, f⟩ := by
  simp [canonDAG.open, formatter.open, fwrite_mk]

theorem close_mk (B : String) (n t : Int) (nT nR h f : Bool) :
    canonDAG.close ⟨⟨B, n, t, nT, nR⟩, h, f⟩ = ⟨⟨B, n - t, t, nT, nR⟩, h, f⟩ := rfl

theorem ret_mk (B : String) (n t : Int) (nT nR h f : Bool) :
    canonDAG.ret ⟨⟨B, n, t, nT, nR⟩, h, f⟩ = ⟨⟨B, n, t, nT, true⟩, h, f⟩ := rfl

theorem flush_mk (B : String) (n t : Int) (nT nR h f : Bool) :
    canonDAG.flush ⟨⟨B, n, t, nT, nR⟩, h, f⟩
      = ⟨⟨B ++ (if nR then "\n" else ""), n, t, nT || nR, false⟩, h, f⟩ := by
  cases nT <;> cases nR <;> simp [canonDAG.flush, formatter.flush]

theorem pend_zero (r : Bool) : pend 0 false r = if r then "\n" else "" := by
  cases r <;> decide

theorem maybewrite_mk (B : String) (n t : Int) (nR h f : Bool) (s : String) (d : Bool) :
    canonDAG.maybewrite ⟨⟨B, n, t, false, nR⟩, h, f⟩ s d = 
      ⟨⟨B ++ (if d then pend n false nR ++ s else ""), n, t, false, nR && !d⟩, h, f⟩ := by
  cases d <;> simp [canonDAG.maybewrite, write_mk]

theorem Expr.ind {P : Expr → Prop} (hnil : P .nil)
    (hAgg : ∀ n e w, P e → P w → P (.Agg n e w))
    (hPrim : ∀ t x, P (.Primitive t x))
    (hUn : ∀ o e, P e → P (.UnaryExpr o e))
    (hBin : ∀ o l r, P l → P r → P (.BinaryExpr o l r))
    (hCond : ∀ a b c, P a → P b → P c → P (.Conditional a b c))
    (hCall : ∀ n args, (∀ a ∈ args, P a) → P (.Call n args))
    (hSearch : ∀ v, P (.Search v))
    (hThis : ∀ v, P (.This v))
    (hVar : ∀ v, P (.Var v))
    (hLit : ∀ v, P (.Literal v))
    (hTV : ∀ v, P (.TypeValue v))
    (hUnk : ∀ v, P (.unknown v)) : ∀ e, P e :=
  @Expr.rec P (fun l => ∀ a ∈ l, P a) hnil hAgg hPrim hUn hBin hCond hCall hSearch hThis hVar hLit hTV hUnk
    (by intro a ha; cases ha)
    (by
      intro x xs hx hxs a ha
      rcases List.mem_cons.1 ha with h | h
      · exact h ▸ hx
      · exact hxs a h)

theorem expr_nf_nil : ExprNF .nil := by
  intro p n
  exact ⟨"null", false, fun B t nT nR h f => by simp [canonDAG.expr, write_mk]⟩

theorem expr_nf_cond (a b c : Expr) (ha : ExprNF a) (hb : ExprNF b) (hc : ExprNF c) : ExprNF (.Conditional a b c) := by
  intro p n
  obtain ⟨T1, r1, h1⟩ := ha "" n
  obtain ⟨T2, r2, h2⟩ := hb "" n
  obtain ⟨T3, r3, h3⟩ := hc "" n
  refine ⟨"(" ++ (T1 ++ (pend n false r1 ++ (") ? " ++ (T2 ++ (pend n false r2 ++ (" : " ++ T3)))))), r3, fun B t nT nR h f => ?_⟩
  simp [canonDAG.expr, write_mk, h1, h2, h3, String.append_assoc]

theorem exprsFrom_nf (args : List Expr) (hargs : ∀ a ∈ args, ExprNF a) (hne : args ≠ []) :
    ∀ (k : Nat) (n : Int), ∃ (T : String) (r : Bool), ∀ (B : String) (t : Int) (nR h f : Bool),
      canonDAG.exprsFrom ⟨⟨B, n, t, false, nR⟩, h, f⟩ k args
        = ⟨⟨B ++ (pend n false (nR && decide (k > 0) || nR) ++ T), n, t, false, r⟩, h, f⟩ := by
  induction args with
  | nil => exact absurd rfl hne
  | cons a as ih =>
    intro k n
    obtain ⟨T1, r1, h1⟩ := hargs a (List.mem_cons_self _ _) "" n
    by_cases has : as = []
    · subst has
      by_cases hk : k > 0
      · refine ⟨", " ++ T1, r1, fun B t nR h f => ?_⟩
        simp [canonDAG.exprsFrom, hk, write_mk, h1, String.append_assoc]
      · refine ⟨T1, r1, fun B t nR h f => ?_⟩
        simp [canonDAG.exprsFrom, hk, write_mk, h1, String.append_assoc]
    · obtain ⟨T2, r2, h2⟩ := ih (fun x hx => hargs x (List.mem_cons_of_mem _ hx)) has (k + 1) n
      by_cases hk : k > 0
      · refine ⟨", " ++ (T1 ++ (pend n false r1 ++ T2)), r2, fun B t nR h f => ?_⟩
        simp [canonDAG.exprsFrom, hk, write_mk, h1, h2, String.append_assoc]
      · refine ⟨T1 ++ (pend n false r1 ++ T2), r2, fun B t nR h f => ?_⟩
        simp [canonDAG.exprsFrom, hk, write_mk, h1, h2, String.append_assoc]

theorem expr_nf : ∀ e, ExprNF e := by
  intro e
  induction e using Expr.ind with
  | hnil => exact expr_nf_nil
  | hAgg name e w ihe ihw =>
    intro p n
    obtain ⟨T1, r1, h1⟩ := ihe "" n
    obtain ⟨T2, r2, h2⟩ := ihw "" n
    cases he : e.isNil <;> cases hw : w.isNil
    · refine ⟨name ++ ("(" ++ (T1 ++ (pend n false r1 ++ (") where " ++ T2)))), r2, fun B t nT nR h f => ?_⟩
      simp [canonDAG.expr, write_mk, h1, h2, he, hw, String.append_assoc]
    · refine ⟨name ++ ("(" ++ (T1 ++ (pend n false r1 ++ ")"))), false, fun B t nT nR h f => ?_⟩
      simp [canonDAG.expr, write_mk, h1, h2, he, hw, String.append_assoc]
    · refine ⟨name ++ ("() where " ++ T2), r2, fun B t nT nR h f => ?_⟩
      simp [canonDAG.expr, write_mk, h1, h2, he, hw, String.append_assoc]
    · refine ⟨name ++ ("(" ++ ")"), false, fun B t nT nR h f => ?_⟩
      simp [canonDAG.expr, write_mk, h1, h2, he, hw, String.append_assoc]
  | hPrim t x =>
    intro p n
    exact ⟨x, false, fun B t nT nR h f => by simp [canonDAG.expr, canonDAG.literal, write_mk]⟩
  | hUn o e ih =>
    intro p n
    obtain ⟨T1, r1, h1⟩ := ih "not" n
    exact ⟨o ++ T1, r1, fun B t nT nR h f => by simp [canonDAG.expr, write_mk, h1, String.append_assoc]⟩
  | hBin o l r ihl ihr =>
    intro p n
    by_cases ho1 : o = "."
    · obtain ⟨T1, r1, h1⟩ := ihl "" n
      obtain ⟨T2, r2, h2⟩ := ihr "" n
      cases hl : isDAGThis l
      · exact ⟨T1 ++ (pend n false r1 ++ ("." ++ T2)), r2, fun B t nT nR h f => by
          simp [canonDAG.expr, ho1, hl, write_mk, h1, h2, String.append_assoc]⟩
      · exact ⟨T2, r2, fun B t nT nR h f => by
          simp [canonDAG.expr, ho1, hl, write_mk, h1, h2, String.append_assoc]⟩
    · by_cases ho2 : o = "["
      · obtain ⟨T1, r1, h1⟩ := ihl "" n
        obtain ⟨T2, r2, h2⟩ := ihr "" n
        cases hl : isDAGThis l
        · exact ⟨T1 ++ (pend n false r1 ++ ("[" ++ (T2 ++ (pend n false r2 ++ "]")))), false, fun B t nT nR h f => by
            simp [canonDAG.expr, ho1, ho2, hl, write_mk, h1, h2, String.append_assoc]⟩
        · exact ⟨".[" ++ (T2 ++ (pend n false r2 ++ "]")), false, fun B t nT nR h f => by
            simp [canonDAG.expr, ho1, ho2, hl, write_mk, h1, h2, String.append_assoc]⟩
      · obtain ⟨T1, r1, h1⟩ := ihl o n
        obtain ⟨T2, r2, h2⟩ := ihr o n
        by_cases ho3 : o = "in" ∨ o = "and" ∨ o = "or"
        · cases hp : needsparens p o
          · exact ⟨T1 ++ (pend n false r1 ++ (" " ++ (o ++ (" " ++ T2)))), r2, fun B t nT nR h f => by
              simp [canonDAG.expr, ho1, ho2, ho3, hp, canonDAG.maybewrite, write_mk, h1, h2, String.append_assoc]⟩
          · exact ⟨"(" ++ (T1 ++ (pend n false r1 ++ (" " ++ (o ++ (" " ++ (T2 ++ (pend n false r2 ++ ")"))))))), false, fun B t nT nR h f => by
              simp [canonDAG.expr, ho1, ho2, ho3, hp, canonDAG.maybewrite, write_mk, h1, h2, String.append_assoc]⟩
        · cases hp : needsparens p o
          · exact ⟨T1 ++ (pend n false r1 ++ (o ++ T2)), r2, fun B t nT nR h f => by
              simp [canonDAG.expr, ho1, ho2, ho3, hp, canonDAG.maybewrite, write_mk, h1, h2, String.append_assoc]⟩
          · exact ⟨"(" ++ (T1 ++ (pend n false r1 ++ (o ++ (T2 ++ (pend n false r2 ++ ")"))))), false, fun B t nT nR h f => by
              simp [canonDAG.expr, ho1, ho2, ho3, hp, canonDAG.maybewrite, write_mk, h1, h2, String.append_assoc]⟩
  | hCond a b c ha hb hc => exact expr_nf_cond a b c ha hb hc
  | hCall name args ih =>
    intro p n
    by_cases hne : args = []
    · subst hne
      exact ⟨name ++ ("(" ++ ")"), false, fun B t nT nR h f => by
        simp [canonDAG.expr, canonDAG.exprsFrom, write_mk, String.append_assoc]⟩
    · obtain ⟨T1, r1, h1⟩ := exprsFrom_nf args ih hne 0 n
      exact ⟨name ++ ("(" ++ (T1 ++ (pend n false r1 ++ ")"))), false, fun B t nT nR h f => by
        simp [canonDAG.expr, write_mk, h1, String.append_assoc]⟩
  | hSearch v =>
    intro p n
    exact ⟨"search(" ++ (v ++ ")"), false, fun B t nT nR h f => by simp [canonDAG.expr, write_mk, String.append_assoc]⟩
  | hThis v =>
    intro p n
    cases v with
    | nil => exact ⟨"this", false, fun B t nT nR h f => by simp [canonDAG.expr, canonDAG.fieldpath, write_mk]⟩
    | cons x xs => exact ⟨".".intercalate (x :: xs), false, fun B t nT nR h f => by simp [canonDAG.expr, canonDAG.fieldpath, write_mk]⟩
  | hVar v =>
    intro p n
    exact ⟨v, false, fun B t nT nR h f => by simp [canonDAG.expr, write_mk]⟩
  | hLit v =>
    intro p n
    exact ⟨v, false, fun B t nT nR h f => by simp [canonDAG.expr, write_mk]⟩
  | hTV v =>
    intro p n
    exact ⟨"type<" ++ (v ++ ">"), false, fun B t nT nR h f => by simp [canonDAG.expr, canonDAG.typ, write_mk, String.append_assoc]⟩
  | hUnk v =>
    intro p n
    exact ⟨"(unknown expr " ++ (v ++ ")"), true, fun B t nT nR h f => by simp [canonDAG.expr, open_mk, close_mk, ret_mk, String.append_assoc]⟩

theorem next_mk (B : String) (n t : Int) (nT nR h f : Bool) :
    canonDAG.next ⟨⟨B, n, t, nT, nR⟩, h, f⟩
      = ⟨⟨B ++ ((if f then "" else pend n nT nR ++ "\n") ++ (spaces n ++ (if h then "" else "| "))),
          n, t, false, false⟩, false, false⟩ := by
  cases f <;> cases h <;>
    simp [canonDAG.next, canonDAG.writeTab, formatter.writeTab, write_mk, String.append_assoc]

theorem recognizedAll_mem : ∀ (args : List Expr), Expr.recognizedAll args = true →
    ∀ a ∈ args, a.recognized = true
  | [], _, a, ha => by cases ha
  | x :: xs, hx, a, ha => by
    simp [Expr.recognizedAll] at hx
    rcases List.mem_cons.1 ha with h | h
    · exact h ▸ hx.1
    · exact recognizedAll_mem xs hx.2 a h

theorem exprsFrom_text (args : List Expr) (hargs : ∀ a ∈ args, ExprText a) :
    ∀ (k : Nat), ∃ (T : String), ∀ (B : String) (n t : Int) (h f : Bool),
      canonDAG.exprsFrom ⟨⟨B, n, t, false, false⟩, h, f⟩ k args
        = ⟨⟨B ++ T, n, t, false, false⟩, h, f⟩ := by
  induction args with
  | nil => exact fun k => ⟨"", fun B n t h f => by simp [canonDAG.exprsFrom]⟩
  | cons a as ih =>
    intro k
    obtain ⟨T1, h1⟩ := hargs a (List.mem_cons_self _ _) ""
    obtain ⟨T2, h2⟩ := ih (fun x hx => hargs x (List.mem_cons_of_mem _ hx)) (k + 1)
    by_cases hk : k > 0
    · exact ⟨", " ++ (T1 ++ T2), fun B n t h f => by
        simp [canonDAG.exprsFrom, hk, write_mk, h1, h2, String.append_assoc]⟩
    · exact ⟨T1 ++ T2, fun B n t h f => by
        simp [canonDAG.exprsFrom, hk, write_mk, h1, h2, String.append_assoc]⟩

theorem expr_text : ∀ e : Expr, e.recognized = true → ExprText e := by
  intro e
  induction e using Expr.ind with
  | hnil =>
    intro _ p
    exact ⟨"null", fun B n t nT nR h f => by simp [canonDAG.expr, write_mk]⟩
  | hAgg name e w ihe ihw =>
    intro hr p
    simp [Expr.recognized] at hr
    obtain ⟨T1, h1⟩ := ihe hr.1 ""
    obtain ⟨T2, h2⟩ := ihw hr.2 ""
    cases he : e.isNil <;> cases hw : w.isNil
    · exact ⟨name ++ ("(" ++ (T1 ++ (") where " ++ T2))), fun B n t nT nR h f => by
        simp [canonDAG.expr, write_mk, h1, h2, he, hw, String.append_assoc]⟩
    · exact ⟨name ++ ("(" ++ (T1 ++ ")")), fun B n t nT nR h f => by
        simp [canonDAG.expr, write_mk, h1, h2, he, hw, String.append_assoc]⟩
    · exact ⟨name ++ ("() where " ++ T2), fun B n t nT nR h f => by
        simp [canonDAG.expr, write_mk, h1, h2, he, hw, String.append_assoc]⟩
    · exact ⟨name ++ "()", fun B n t nT nR h f => by
        simp [canonDAG.expr, write_mk, h1, h2, he, hw, String.append_assoc]⟩
  | hPrim t x =>
    intro _ p
    exact ⟨x, fun B n t nT nR h f => by simp [canonDAG.expr, canonDAG.literal, write_mk]⟩
  | hUn o e ih =>
    intro hr p
    simp [Expr.recognized] at hr
    obtain ⟨T1, h1⟩ := ih hr "not"
    exact ⟨o ++ T1, fun B n t nT nR h f => by
      simp [canonDAG.expr, write_mk, h1, String.append_assoc]⟩
  | hBin o l r ihl ihr =>
    intro hr p
    simp [Expr.recognized] at hr
    by_cases ho1 : o = "."
    · obtain ⟨T1, h1⟩ := ihl hr.1 ""
      obtain ⟨T2, h2⟩ := ihr hr.2 ""
      cases hl : isDAGThis l
      · exact ⟨T1 ++ ("." ++ T2), fun B n t nT nR h f => by
          simp [canonDAG.expr, ho1, hl, write_mk, h1, h2, String.append_assoc]⟩
      · exact ⟨T2, fun B n t nT nR h f => by
          simp [canonDAG.expr, ho1, hl, write_mk, h1, h2, String.append_assoc]⟩
    · by_cases ho2 : o = "["
      · obtain ⟨T1, h1⟩ := ihl hr.1 ""
        obtain ⟨T2, h2⟩ := ihr hr.2 ""
        cases hl : isDAGThis l
        · exact ⟨T1 ++ ("[" ++ (T2 ++ "]")), fun B n t nT nR h f => by
            simp [canonDAG.expr, ho1, ho2, hl, write_mk, h1, h2, String.append_assoc]⟩
        · exact ⟨".[" ++ (T2 ++ "]"), fun B n t nT nR h f => by
            simp [canonDAG.expr, ho1, ho2, hl, write_mk, h1, h2, String.append_assoc]⟩
      · obtain ⟨T1, h1⟩ := ihl hr.1 o
        obtain ⟨T2, h2⟩ := ihr hr.2 o
        by_cases ho3 : o = "in" ∨ o = "and" ∨ o = "or"
        · cases hp : needsparens p o
          · exact ⟨T1 ++ (" " ++ (o ++ (" " ++ T2))), fun B n t nT nR h f => by
              simp [canonDAG.expr, ho1, ho2, ho3, hp, canonDAG.maybewrite, write_mk, h1, h2,
                String.append_assoc]⟩
          · exact ⟨"(" ++ (T1 ++ (" " ++ (o ++ (" " ++ (T2 ++ ")"))))), fun B n t nT nR h f => by
              simp [canonDAG.expr, ho1, ho2, ho3, hp, canonDAG.maybewrite, write_mk, h1, h2,
                String.append_assoc]⟩
        · cases hp : needsparens p o
          · exact ⟨T1 ++ (o ++ T2), fun B n t nT nR h f => by
              simp [canonDAG.expr, ho1, ho2, ho3, hp, canonDAG.maybewrite, write_mk, h1, h2,
                String.append_assoc]⟩
          · exact ⟨"(" ++ (T1 ++ (o ++ (T2 ++ ")"))), fun B n t nT nR h f => by
              simp [canonDAG.expr, ho1, ho2, ho3, hp, canonDAG.maybewrite, write_mk, h1, h2,
                String.append_assoc]⟩
  | hCond a b c ha hb hc =>
    intro hr p
    simp [Expr.recognized] at hr
    obtain ⟨T1, h1⟩ := ha hr.1.1 ""
    obtain ⟨T2, h2⟩ := hb hr.1.2 ""
    obtain ⟨T3, h3⟩ := hc hr.2 ""
    exact ⟨"(" ++ (T1 ++ (") ? " ++ (T2 ++ (" : " ++ T3)))), fun B n t nT nR h f => by
      simp [canonDAG.expr, write_mk, h1, h2, h3, String.append_assoc]⟩
  | hCall name args ih =>
    intro hr p
    simp [Expr.recognized] at hr
    obtain ⟨T1, h1⟩ := exprsFrom_text args
      (fun a ha => ih a ha (recognizedAll_mem args hr a ha)) 0
    exact ⟨name ++ ("(" ++ (T1 ++ ")")), fun B n t nT nR h f => by
      simp [canonDAG.expr, write_mk, h1, String.append_assoc]⟩
  | hSearch v =>
    intro _ p
    exact ⟨"search(" ++ (v ++ ")"), fun B n t nT nR h f => by
      simp [canonDAG.expr, write_mk, String.append_assoc]⟩
  | hThis v =>
    intro _ p
    cases v with
    | nil => exact ⟨"this", fun B n t nT nR h f => by
        simp [canonDAG.expr, canonDAG.fieldpath, write_mk]⟩
    | cons x xs => exact ⟨".".intercalate (x :: xs), fun B n t nT nR h f => by
        simp [canonDAG.expr, canonDAG.fieldpath, write_mk]⟩
  | hVar v =>
    intro _ p
    exact ⟨v, fun B n t nT nR h f => by simp [canonDAG.expr, write_mk]⟩
  | hLit v =>
    intro _ p
    exact ⟨v, fun B n t nT nR h f => by simp [canonDAG.expr, write_mk]⟩
  | hTV v =>
    intro _ p
    exact ⟨"type<" ++ (v ++ ">"), fun B n t nT nR h f => by
      simp [canonDAG.expr, canonDAG.typ, write_mk, String.append_assoc]⟩
  | hUnk v =>
    intro hr
    simp [Expr.recognized] at hr

/-! ## Indentation depth -/

@[simp] theorem tab_write (c : canonDAG) (s : String) :
    (c.write s).formatter.tab = c.formatter.tab := by
  obtain ⟨⟨B, n, t, nT, nR⟩, h, f⟩ := c
  simp [write_mk]

@[simp] theorem indent_write (c : canonDAG) (s : String) :
    (c.write s).formatter.indent = c.formatter.indent := by
  obtain ⟨⟨B, n, t, nT, nR⟩, h, f⟩ := c
  simp [write_mk]

@[simp] theorem tab_open (c : canonDAG) (s : String) :
    (c.open s).formatter.tab = c.formatter.tab := by
  obtain ⟨⟨B, n, t, nT, nR⟩, h, f⟩ := c
  simp [open_mk]

@[simp] theorem tab_open_ (c : canonDAG) : c.open_.formatter.tab = c.formatter.tab := rfl

@[simp] theorem indent_open_ (c : canonDAG) :
    c.open_.formatter.indent = c.formatter.indent + c.formatter.tab := rfl

@[simp] theorem indent_open (c : canonDAG) (s : String) :
    (c.open s).formatter.indent = c.formatter.indent + c.formatter.tab := by
  obtain ⟨⟨B, n, t, nT, nR⟩, h, f⟩ := c
  simp [open_mk]

@[simp] theorem tab_close (c : canonDAG) : c.close.formatter.tab = c.formatter.tab := rfl

@[simp] theorem indent_close (c : canonDAG) :
    c.close.formatter.indent = c.formatter.indent - c.formatter.tab := rfl

@[simp] theorem tab_ret (c : canonDAG) : c.ret.formatter.tab = c.formatter.tab := rfl

@[simp] theorem indent_ret (c : canonDAG) : c.ret.formatter.indent = c.formatter.indent := rfl

@[simp] theorem tab_flush (c : canonDAG) : c.flush.formatter.tab = c.formatter.tab := by
  obtain ⟨⟨B, n, t, nT, nR⟩, h, f⟩ := c
  simp [flush_mk]

@[simp] theorem indent_flush (c : canonDAG) :
    c.flush.formatter.indent = c.formatter.indent := by
  obtain ⟨⟨B, n, t, nT, nR⟩, h, f⟩ := c
  simp [flush_mk]

@[simp] theorem tab_space (c : canonDAG) : c.space.formatter.tab = c.formatter.tab := by
  obtain ⟨⟨B, n, t, nT, nR⟩, h, f⟩ := c
  simp [canonDAG.space, formatter.space, fwrite_mk]

@[simp] theorem indent_space (c : canonDAG) :
    c.space.formatter.indent = c.formatter.indent := by
  obtain ⟨⟨B, n, t, nT, nR⟩, h, f⟩ := c
  simp [canonDAG.space, formatter.space, fwrite_mk]

@[simp] theorem tab_next (c : canonDAG) : c.next.formatter.tab = c.formatter.tab := by
  obtain ⟨⟨B, n, t, nT, nR⟩, h, f⟩ := c
  simp [next_mk]

@[simp] theorem indent_next (c : canonDAG) : c.next.formatter.indent = c.formatter.indent := by
  obtain ⟨⟨B, n, t, nT, nR⟩, h, f⟩ := c
  simp [next_mk]

@[simp] theorem tab_expr (c : canonDAG) (e : Expr) (p : String) :
    (c.expr e p).formatter.tab = c.formatter.tab := by
  obtain ⟨⟨B, n, t, nT, nR⟩, h, f⟩ := c
  obtain ⟨T, r, hT⟩ := expr_nf e p n
  simp [hT]

@[simp] theorem indent_expr (c : canonDAG) (e : Expr) (p : String) :
    (c.expr e p).formatter.indent = c.formatter.indent := by
  obtain ⟨⟨B, n, t, nT, nR⟩, h, f⟩ := c
  obtain ⟨T, r, hT⟩ := expr_nf e p n
  simp [hT]

theorem depth_exprsFrom (es : List Expr) : ∀ (k : Nat) (c : canonDAG),
    (c.exprsFrom k es).formatter.tab = c.formatter.tab
      ∧ (c.exprsFrom k es).formatter.indent = c.formatter.indent := by
  induction es with
  | nil => intro k c; simp [canonDAG.exprsFrom]
  | cons e es ih =>
    intro k c
    simp only [canonDAG.exprsFrom]
    split <;> simp [ih]

@[simp] theorem tab_exprs (c : canonDAG) (es : List Expr) :
    (c.exprs es).formatter.tab = c.formatter.tab :=
  (depth_exprsFrom es 0 c).1

@[simp] theorem indent_exprs (c : canonDAG) (es : List Expr) :
    (c.exprs es).formatter.indent = c.formatter.indent :=
  (depth_exprsFrom es 0 c).2

theorem depth_assignmentsFrom (as : List Assignment) : ∀ (k : Nat) (c : canonDAG),
    (c.assignmentsFrom k as).formatter.tab = c.formatter.tab
      ∧ (c.assignmentsFrom k as).formatter.indent = c.formatter.indent := by
  induction as with
  | nil => intro k c; simp [canonDAG.assignmentsFrom]
  | cons a as ih =>
    intro k c
    simp only [canonDAG.assignmentsFrom]
    split <;> split <;> simp [ih]

@[simp] theorem tab_assignments (c : canonDAG) (as : List Assignment) :
    (c.assignments as).formatter.tab = c.formatter.tab :=
  (depth_assignmentsFrom as 0 c).1

@[simp] theorem indent_assignments (c : canonDAG) (as : List Assignment) :
    (c.assignments as).formatter.indent = c.formatter.indent :=
  (depth_assignmentsFrom as 0 c).2

theorem depth_consts (ds : List Def) : ∀ (c : canonDAG),
    (c.consts ds).formatter.tab = c.formatter.tab
      ∧ (c.consts ds).formatter.indent = c.formatter.indent := by
  induction ds with
  | nil => intro c; simp [canonDAG.consts]
  | cons d ds ih => intro c; simp [canonDAG.consts, ih]

theorem depth_params (xs : List String) : ∀ (i : Nat) (c : canonDAG),
    (c.params i xs).formatter.tab = c.formatter.tab
      ∧ (c.params i xs).formatter.indent = c.formatter.indent := by
  induction xs with
  | nil => intro i c; simp [canonDAG.params]
  | cons x xs ih =>
    intro i c
    simp only [canonDAG.params]
    split <;> simp [ih]

theorem depth_funcs (fs : List Func) : ∀ (c : canonDAG),
    (c.funcs fs).formatter.tab = c.formatter.tab
      ∧ (c.funcs fs).formatter.indent = c.formatter.indent := by
  induction fs with
  | nil => intro c; simp [canonDAG.funcs]
  | cons f fs ih => intro c; simp [canonDAG.funcs, ih, depth_params]

mutual
theorem depth_op : ∀ (p : Op) (c : canonDAG), Deepens p.switches c (c.op p)
  | .Sequential none, c => by simp [Deepens, canonDAG.op, Op.switches]
  | .Sequential (some s), c => by
    have h := depth_sequential s c
    simpa [Deepens, canonDAG.op, Op.switches] using h
  | .Parallel ops, c => by
    have h := depth_parallelOps ops (c.next.open "fork (")
    simp [Deepens] at h
    simp [Deepens, canonDAG.op, Op.switches, h]
    ring
  | .Switch e cases, c => by
    have h := depth_switchCases cases
      ((if !e.isNil then ((c.next.open "switch ").expr e "").write " "
        else c.next.open "switch ").open "(")
    simp [Deepens] at h
    cases he : e.isNil <;> simp [he] at h <;>
      simp [Deepens, canonDAG.op, Op.switches, h, he] <;> ring
  | .Merge e o, c => by simp [Deepens, canonDAG.op, Op.switches]
  | .Summarize aggs keys limit pin pout dir, c => by
    simp only [Deepens, canonDAG.op, Op.switches]
    split <;> split <;> split <;> split <;> split <;> simp
  | .Cut args, c => by simp [Deepens, canonDAG.op, Op.switches]
  | .Drop args, c => by simp [Deepens, canonDAG.op, Op.switches]
  | .Sort args o nf, c => by
    simp only [Deepens, canonDAG.op, Op.switches]
    split <;> split <;> split <;> simp
  | .Head n, c => by simp [Deepens, canonDAG.op, Op.switches]
  | .Tail n, c => by simp [Deepens, canonDAG.op, Op.switches]
  | .Uniq b, c => by
    simp only [Deepens, canonDAG.op, Op.switches]
    split <;> simp
  | .Pass, c => by simp [Deepens, canonDAG.op, Op.switches]
  | .Filter e, c => by
    simp only [Deepens, canonDAG.op, Op.switches]
    split <;> simp
  | .Top args l f, c => by simp [Deepens, canonDAG.op, Op.switches]
  | .Put args, c => by simp [Deepens, canonDAG.op, Op.switches]
  | .Rename args, c => by simp [Deepens, canonDAG.op, Op.switches]
  | .Fuse, c => by simp [Deepens, canonDAG.op, Op.switches]
  | .Join l r args, c => by
    simp only [Deepens, canonDAG.op, Op.switches]
    split <;> simp
  | .From trunks, c => by
    have h := depth_fromTrunks trunks (c.next.open "from (")
    simp [Deepens] at h
    simp [Deepens, canonDAG.op, Op.switches, h]
    ring
  | .Over es, c => by simp [Deepens, canonDAG.op, Op.switches]
  | .Yield es, c => by simp [Deepens, canonDAG.op, Op.switches]
  | .nil, c => by simp [Deepens, canonDAG.op, Op.switches]
  | .unknown k, c => by simp [Deepens, canonDAG.op, Op.switches]
theorem depth_sequential : ∀ (s : Sequential) (c : canonDAG),
    Deepens s.switches c (c.sequential s)
  | .mk consts funcs ops, c => by
    have h := depth_sequentialOps ops ((c.consts consts).funcs funcs)
    simp [Deepens, depth_consts, depth_funcs] at h
    simpa [Deepens, canonDAG.sequential, Sequential.switches] using h
theorem depth_sequentialOps : ∀ (ops : List Op) (c : canonDAG),
    Deepens (Op.switchesOps ops) c (c.sequentialOps ops)
  | [], c => by simp [Deepens, canonDAG.sequentialOps, Op.switchesOps]
  | p :: ps, c => by
    have h1 := depth_op p c
    have h2 := depth_sequentialOps ps (c.op p)
    simp [Deepens] at h1 h2
    simp [Deepens, canonDAG.sequentialOps, Op.switchesOps, h1, h2]
    ring
theorem depth_parallelOps : ∀ (ops : List Op) (c : canonDAG),
    Deepens (Op.switchesOps ops) c (c.parallelOps ops)
  | [], c => by simp [Deepens, canonDAG.parallelOps, Op.switchesOps]
  | p :: ps, c => by
    have h1 := depth_op p { (c.ret.write "=>").open_ with head := true }
    have h2 := depth_parallelOps ps
      (canonDAG.op { (c.ret.write "=>").open_ with head := true } p).close
    simp [Deepens] at h1 h2
    simp [Deepens, canonDAG.parallelOps, Op.switchesOps, h1, h2]
    ring
theorem depth_switchCases : ∀ (ks : List Case) (c : canonDAG),
    Deepens (Op.switchesCases ks) c (c.switchCases ks)
  | [], c => by simp [Deepens, canonDAG.switchCases, Op.switchesCases]
  | .mk e p :: ks, c => by
    have h1 := depth_op p
      { ((if !e.isNil then (c.ret.write "case ").expr e "" else c.ret.write "default").write
          " =>").open_ with head := true }
    have h2 := depth_switchCases ks
      (canonDAG.op { ((if !e.isNil then (c.ret.write "case ").expr e ""
          else c.ret.write "default").write " =>").open_ with head := true } p).close
    simp [Deepens] at h1 h2
    cases he : e.isNil <;> simp [he] at h1 h2 <;>
      simp [Deepens, canonDAG.switchCases, Op.switchesCases, h1, h2, he] <;> ring
theorem depth_fromTrunks : ∀ (ts : List Trunk) (c : canonDAG),
    Deepens (Op.switchesTrunks ts) c (c.fromTrunks ts)
  | [], c => by simp [Deepens, canonDAG.fromTrunks, Op.switchesTrunks]
  | .mk src seq pushdown :: ts, c => by
    have hp : Deepens pushdown.switches c.ret
        (if !pushdown.isNil then
          (((canonDAG.op ({ c.ret with head := true }.open "(pushdown") pushdown).write
            ")").close).ret
          else c.ret) := by
      cases hn : pushdown.isNil
      · have h1 := depth_op pushdown ({ c.ret with head := true }.open "(pushdown")
        simp [Deepens] at h1
        simp [Deepens, h1]
        ring
      · cases pushdown <;> simp [Op.isNil] at hn
        simp [Deepens, Op.switches, Op.isNil]
    match seq with
    | none =>
      have h2 := depth_fromTrunks ts
        ((if !pushdown.isNil then
          (((canonDAG.op ({ c.ret with head := true }.open "(pushdown") pushdown).write
            ")").close).ret
          else c.ret).write (source src))
      simp [Deepens] at hp h2
      simp [Deepens, canonDAG.fromTrunks, Op.switchesTrunks, hp, h2]
      ring
    | some s =>
      by_cases hs : s.Ops.length ≠ 0
      · have h1 := depth_sequential s
          ({ ((if !pushdown.isNil then
            (((canonDAG.op ({ c.ret with head := true }.open "(pushdown") pushdown).write
              ")").close).ret
            else c.ret).write (source src)).open_ with head := true }.write " =>")
        have h2 := depth_fromTrunks ts
          (canonDAG.sequential ({ ((if !pushdown.isNil then
            (((canonDAG.op ({ c.ret with head := true }.open "(pushdown") pushdown).write
              ")").close).ret
            else c.ret).write (source src)).open_ with head := true }.write " =>") s).close
        simp [Deepens] at hp h1 h2
        simp [Deepens, canonDAG.fromTrunks, Op.switchesTrunks, hs, hp, h1, h2]
        ring
      · have h0 : s.switches = 0 := by
          cases s with
          | mk cs fs ops =>
            cases ops with
            | nil => simp [Sequential.switches, Op.switchesOps]
            | cons o os => simp [Sequential.Ops] at hs
        have h2 := depth_fromTrunks ts
          ((if !pushdown.isNil then
            (((canonDAG.op ({ c.ret with head := true }.open "(pushdown") pushdown).write
              ")").close).ret
            else c.ret).write (source src))
        simp [Deepens] at hp h2
        simp [Deepens, canonDAG.fromTrunks, Op.switchesTrunks, hs, h0, hp, h2]
        ring
end

/-! ## Rendering of a standalone expression -/

theorem DAGExpr_nf (e : Expr) (T : String) (r : Bool)
    (h : ∀ (B : String) (t : Int) (nT nR h f : Bool),
      canonDAG.expr ⟨⟨B, 0, t, nT, nR⟩, h, f⟩ e ""
        = ⟨⟨B ++ (pend 0 nT nR ++ T), 0, t, false, r⟩, h, f⟩) :
    DAGExpr e = T ++ pend 0 false r := by
  simp [DAGExpr, canonDAG.init, h, flush_mk, pend_zero, canonDAG.string]

theorem DAGExpr_text (e : Expr) (T : String)
    (h : ∀ (B : String) (n t : Int) (nT nR h f : Bool),
      canonDAG.expr ⟨⟨B, n, t, nT, nR⟩, h, f⟩ e ""
        = ⟨⟨B ++ (pend n nT nR ++ T), n, t, false, false⟩, h, f⟩) :
    DAGExpr e = T := by
  simp [DAGExpr, canonDAG.init, h, flush_mk, pend_zero, canonDAG.string]

theorem atom_expr (a : Expr) (ha : a.isAtom = true) :
    ∃ T : String, ∀ (p : String) (B : String) (n t : Int) (nT nR h f : Bool),
      canonDAG.expr ⟨⟨B, n, t, nT, nR⟩, h, f⟩ a p
        = ⟨⟨B ++ (pend n nT nR ++ T), n, t, false, false⟩, h, f⟩ := by
  cases a <;> simp [Expr.isAtom] at ha
  case This v =>
    cases v with
    | nil => exact ⟨"this", fun p B n t nT nR h f => by
        simp [canonDAG.expr, canonDAG.fieldpath, write_mk]⟩
    | cons x xs => exact ⟨".".intercalate (x :: xs), fun p B n t nT nR h f => by
        simp [canonDAG.expr, canonDAG.fieldpath, write_mk]⟩
  case Var v =>
    exact ⟨v, fun p B n t nT nR h f => by simp [canonDAG.expr, write_mk]⟩

theorem DAGExpr_atom (a : Expr) (T : String)
    (h : ∀ (p : String) (B : String) (n t : Int) (nT nR h f : Bool),
      canonDAG.expr ⟨⟨B, n, t, nT, nR⟩, h, f⟩ a p
        = ⟨⟨B ++ (pend n nT nR ++ T), n, t, false, false⟩, h, f⟩) :
    DAGExpr a = T := by
  simp [DAGExpr, canonDAG.init, h, flush_mk, pend_zero, canonDAG.string]

theorem isDAGTrue_iff (e : Expr) : isDAGTrue e = true ↔ e = .Primitive "bool" "true" := by
  cases e <;> simp [isDAGTrue]

/-! ## Lists, single-line operators and pipelines -/

theorem intercalate_go (sep : String) : ∀ (as : List String) (acc : String),
    String.intercalate.go acc sep as = acc ++ joinTail sep as
  | [], acc => by simp [String.intercalate.go, joinTail]
  | a :: as, acc => by
    simp [String.intercalate.go, joinTail, intercalate_go sep as, String.append_assoc]

theorem intercalate_cons (sep a : String) (as : List String) :
    sep.intercalate (a :: as) = a ++ joinTail sep as := by
  simp [String.intercalate, intercalate_go]

theorem expr_DAGExpr (e : Expr) (hr : e.recognized = true) (B : String) (n t : Int)
    (nT nR h f : Bool) :
    canonDAG.expr ⟨⟨B, n, t, nT, nR⟩, h, f⟩ e ""
      = ⟨⟨B ++ (pend n nT nR ++ DAGExpr e), n, t, false, false⟩, h, f⟩ := by
  obtain ⟨T, hT⟩ := expr_text e hr ""
  rw [DAGExpr_text e T hT, hT]

theorem exprsFrom_join : ∀ (es : List Expr), Expr.recognizedAll es = true →
    ∀ (k : Nat) (B : String) (n t : Int) (h f : Bool),
      canonDAG.exprsFrom ⟨⟨B, n, t, false, false⟩, h, f⟩ k es
        = ⟨⟨B ++ (if k > 0 then joinTail ", " (es.map DAGExpr)
              else ", ".intercalate (es.map DAGExpr)), n, t, false, false⟩, h, f⟩
  | [], _, k, B, n, t, h, f => by
    simp [canonDAG.exprsFrom, joinTail, String.intercalate]
  | e :: es, hr, k, B, n, t, h, f => by
    simp [Expr.recognizedAll] at hr
    have ih := exprsFrom_join es hr.2 (k + 1)
    by_cases hk : k > 0
    · simp [canonDAG.exprsFrom, hk, write_mk, expr_DAGExpr e hr.1, ih, joinTail,
        String.append_assoc]
    · simp [canonDAG.exprsFrom, hk, write_mk, expr_DAGExpr e hr.1, ih, joinTail,
        intercalate_cons, String.append_assoc]

theorem exprs_join (es : List Expr) (hr : Expr.recognizedAll es = true) (B : String)
    (n t : Int) (h f : Bool) :
    canonDAG.exprs ⟨⟨B, n, t, false, false⟩, h, f⟩ es
      = ⟨⟨B ++ ", ".intercalate (es.map DAGExpr), n, t, false, false⟩, h, f⟩ := by
  simp [canonDAG.exprs, exprsFrom_join es hr 0]

theorem assignmentsFrom_join : ∀ (as : List Assignment),
    as.all Assignment.recognized = true →
    ∀ (k : Nat) (B : String) (n t : Int) (h f : Bool),
      canonDAG.assignmentsFrom ⟨⟨B, n, t, false, false⟩, h, f⟩ k as
        = ⟨⟨B ++ (if k > 0 then joinTail "," (as.map assignmentText)
              else ",".intercalate (as.map assignmentText)), n, t, false, false⟩, h, f⟩
  | [], _, k, B, n, t, h, f => by
    simp [canonDAG.assignmentsFrom, joinTail, String.intercalate]
  | a :: as, hr, k, B, n, t, h, f => by
    simp [Assignment.recognized] at hr
    have ih := assignmentsFrom_join as (by simpa [Assignment.recognized] using hr.2) (k + 1)
    by_cases hk : k > 0 <;> cases hl : a.LHS.isNil <;>
      simp [canonDAG.assignmentsFrom, hk, hl, write_mk, expr_DAGExpr _ hr.1.1,
        expr_DAGExpr _ hr.1.2, ih, joinTail, assignmentText, intercalate_cons,
        String.append_assoc]

theorem assignments_join (as : List Assignment) (hr : as.all Assignment.recognized = true)
    (B : String) (n t : Int) (h f : Bool) :
    canonDAG.assignments ⟨⟨B, n, t, false, false⟩, h, f⟩ as
      = ⟨⟨B ++ ",".intercalate (as.map assignmentText), n, t, false, false⟩, h, f⟩ := by
  simp [canonDAG.assignments, assignmentsFrom_join as hr 0]

theorem spaces_zero : spaces 0 = "" := rfl

theorem assignments_nil (c : canonDAG) : c.assignments [] = c := rfl

theorem assignments_join_pending (a : Assignment) (as : List Assignment)
    (hr : (a :: as).all Assignment.recognized = true) (B : String) (n t : Int)
    (nT nR h f : Bool) :
    canonDAG.assignments ⟨⟨B, n, t, nT, nR⟩, h, f⟩ (a :: as)
      = ⟨⟨B ++ (pend n nT nR ++ ",".intercalate ((a :: as).map assignmentText)), n, t, false,
          false⟩, h, f⟩ := by
  simp [Assignment.recognized] at hr
  have ih := assignmentsFrom_join as (by simpa [Assignment.recognized] using hr.2) 1
  cases hl : a.LHS.isNil <;>
    simp [canonDAG.assignments, canonDAG.assignmentsFrom, hl, write_mk,
      expr_DAGExpr _ hr.1.1, expr_DAGExpr _ hr.1.2, ih, assignmentText, intercalate_cons,
      String.append_assoc]

theorem pend_four : pend 4 false true = "\n    " := by decide


theorem op_text : ∀ (p : Op), p.singleLine = true → OpText p
  | .Pass, hs => by
    simp [Op.singleLine] at hs
    exact ⟨"pass", fun B n t nT nR h f => by
      simp [canonDAG.op, next_mk, write_mk, lead, String.append_assoc]⟩
  | .Fuse, hs => by
    simp [Op.singleLine] at hs
    exact ⟨"fuse", fun B n t nT nR h f => by
      simp [canonDAG.op, next_mk, write_mk, lead, String.append_assoc]⟩
  | .Head c, hs => by
    simp [Op.singleLine] at hs
    exact ⟨"head " ++ toString c, fun B n t nT nR h f => by
      simp [canonDAG.op, next_mk, write_mk, lead, String.append_assoc]⟩
  | .Tail c, hs => by
    simp [Op.singleLine] at hs
    exact ⟨"tail " ++ toString c, fun B n t nT nR h f => by
      simp [canonDAG.op, next_mk, write_mk, lead, String.append_assoc]⟩
  | .Uniq b, hs => by
    simp [Op.singleLine] at hs
    cases b
    · exact ⟨"uniq", fun B n t nT nR h f => by
        simp [canonDAG.op, next_mk, write_mk, lead, String.append_assoc]⟩
    · exact ⟨"uniq -c", fun B n t nT nR h f => by
        simp [canonDAG.op, next_mk, write_mk, lead, String.append_assoc]⟩
  | .Cut args, hs => by
    simp [Op.singleLine] at hs
    exact ⟨"cut " ++ ",".intercalate (args.map assignmentText), fun B n t nT nR h f => by
      simp [canonDAG.op, next_mk, write_mk, lead, assignments_join args (by simpa using hs),
        String.append_assoc]⟩
  | .Put args, hs => by
    simp [Op.singleLine] at hs
    exact ⟨"put " ++ ",".intercalate (args.map assignmentText), fun B n t nT nR h f => by
      simp [canonDAG.op, next_mk, write_mk, lead, assignments_join args (by simpa using hs),
        String.append_assoc]⟩
  | .Rename args, hs => by
    simp [Op.singleLine] at hs
    exact ⟨"rename " ++ ",".intercalate (args.map assignmentText), fun B n t nT nR h f => by
      simp [canonDAG.op, next_mk, write_mk, lead, assignments_join args (by simpa using hs),
        String.append_assoc]⟩
  | .Drop args, hs => by
    simp [Op.singleLine] at hs
    exact ⟨"drop " ++ ", ".intercalate (args.map DAGExpr), fun B n t nT nR h f => by
      simp [canonDAG.op, next_mk, write_mk, lead, exprs_join args hs, String.append_assoc]⟩
  | .Over args, hs => by
    simp [Op.singleLine] at hs
    exact ⟨"over " ++ ", ".intercalate (args.map DAGExpr), fun B n t nT nR h f => by
      simp [canonDAG.op, next_mk, write_mk, lead, exprs_join args hs, String.append_assoc]⟩
  | .Yield args, hs => by
    simp [Op.singleLine] at hs
    exact ⟨"yield " ++ ", ".intercalate (args.map DAGExpr), fun B n t nT nR h f => by
      simp [canonDAG.op, next_mk, write_mk, lead, exprs_join args hs, String.append_assoc]⟩
  | .Top args l fl, hs => by
    simp [Op.singleLine] at hs
    exact ⟨"top limit=" ++ (toString l ++ (" flush=" ++ (toString fl ++ (" "
        ++ ", ".intercalate (args.map DAGExpr))))), fun B n t nT nR h f => by
      simp [canonDAG.op, next_mk, write_mk, lead, exprs_join args hs, String.append_assoc]⟩
  | .Merge e o, hs => by
    simp [Op.singleLine] at hs
    exact ⟨"merge " ++ (DAGExpr e ++ (":" ++ o.string)), fun B n t nT nR h f => by
      simp [canonDAG.op, next_mk, write_mk, lead, expr_DAGExpr e hs, String.append_assoc]⟩
  | .Filter e, hs => by
    simp [Op.singleLine] at hs
    exact ⟨"where " ++ (if isDAGTrue e then "*" else DAGExpr e), fun B n t nT nR h f => by
      cases ht : isDAGTrue e <;>
        simp [canonDAG.op, ht, next_mk, write_mk, open_mk, close_mk, lead, expr_DAGExpr e hs,
          String.append_assoc]⟩
  | .Sort args o nf, hs => by
    simp [Op.singleLine] at hs
    by_cases ho : o = Which.Desc <;> cases nf <;> by_cases ha : args.length > 0
    · exact ⟨"sort -r " ++ ", ".intercalate (args.map DAGExpr), fun B n t nT nR h f => by
        simp [canonDAG.op, ho, ha, next_mk, write_mk, lead, exprs_join args hs,
          canonDAG.space, formatter.space, fwrite_mk, String.append_assoc]⟩
    · exact ⟨"sort -r", fun B n t nT nR h f => by
        simp [canonDAG.op, ho, ha, next_mk, write_mk, lead, exprs_join args hs,
          canonDAG.space, formatter.space, fwrite_mk, String.append_assoc]⟩
    · exact ⟨"sort -r -nulls first " ++ ", ".intercalate (args.map DAGExpr), fun B n t nT nR h f => by
        simp [canonDAG.op, ho, ha, next_mk, write_mk, lead, exprs_join args hs,
          canonDAG.space, formatter.space, fwrite_mk, String.append_assoc]⟩
    · exact ⟨"sort -r -nulls first", fun B n t nT nR h f => by
        simp [canonDAG.op, ho, ha, next_mk, write_mk, lead, exprs_join args hs,
          canonDAG.space, formatter.space, fwrite_mk, String.append_assoc]⟩
    · exact ⟨"sort " ++ ", ".intercalate (args.map DAGExpr), fun B n t nT nR h f => by
        simp [canonDAG.op, ho, ha, next_mk, write_mk, lead, exprs_join args hs,
          canonDAG.space, formatter.space, fwrite_mk, String.append_assoc]⟩
    · exact ⟨"sort", fun B n t nT nR h f => by
        simp [canonDAG.op, ho, ha, next_mk, write_mk, lead, exprs_join args hs,
          canonDAG.space, formatter.space, fwrite_mk, String.append_assoc]⟩
    · exact ⟨"sort -nulls first " ++ ", ".intercalate (args.map DAGExpr), fun B n t nT nR h f => by
        simp [canonDAG.op, ho, ha, next_mk, write_mk, lead, exprs_join args hs,
          canonDAG.space, formatter.space, fwrite_mk, String.append_assoc]⟩
    · exact ⟨"sort -nulls first", fun B n t nT nR h f => by
        simp [canonDAG.op, ho, ha, next_mk, write_mk, lead, exprs_join args hs,
          canonDAG.space, formatter.space, fwrite_mk, String.append_assoc]⟩
  | .Join l r args, hs => by
    simp [Op.singleLine] at hs
    exact ⟨"join on " ++ (DAGExpr l ++ ("=" ++ (DAGExpr r
        ++ (if args.length ≠ 0 then " " ++ ",".intercalate (args.map assignmentText) else "")))),
      fun B n t nT nR h f => by
        by_cases ha : args.length ≠ 0 <;>
          simp [canonDAG.op, ha, next_mk, write_mk, open_mk, close_mk, lead,
            expr_DAGExpr l hs.1.1, expr_DAGExpr r hs.1.2,
            assignments_join args (by simpa using hs.2), String.append_assoc]⟩
  | .nil, hs => by simp [Op.singleLine] at hs
  | .Sequential _, hs => by simp [Op.singleLine] at hs
  | .Parallel _, hs => by simp [Op.singleLine] at hs
  | .Switch _ _, hs => by simp [Op.singleLine] at hs
  | .Summarize _ _ _ _ _ _, hs => by simp [Op.singleLine] at hs
  | .From _, hs => by simp [Op.singleLine] at hs
  | .unknown _, hs => by simp [Op.singleLine] at hs

theorem DAG_op_text (p : Op) (T : String)
    (h : ∀ (B : String) (n t : Int) (nT nR h f : Bool),
      canonDAG.op ⟨⟨B, n, t, nT, nR⟩, h, f⟩ p
        = ⟨⟨B ++ (lead f h n nT nR ++ T), n, t, false, false⟩, false, false⟩) :
    DAG p = T := by
  simp [DAG, canonDAG.init, h, flush_mk, pend_zero, canonDAG.string, lead, spaces_zero]

theorem op_DAG (p : Op) (hs : p.singleLine = true) (B : String) (n t : Int)
    (nT nR h f : Bool) :
    canonDAG.op ⟨⟨B, n, t, nT, nR⟩, h, f⟩ p
      = ⟨⟨B ++ (lead f h n nT nR ++ DAG p), n, t, false, false⟩, false, false⟩ := by
  obtain ⟨T, hT⟩ := op_text p hs
  rw [DAG_op_text p T hT, hT]


theorem sequentialOps_join : ∀ (ops : List Op), ops.all Op.singleLine = true →
    ∀ (B : String) (t : Int),
      canonDAG.sequentialOps ⟨⟨B, 0, t, false, false⟩, false, false⟩ ops
        = ⟨⟨B ++ joinTail "\n| " (ops.map DAG), 0, t, false, false⟩, false, false⟩
  | [], _, B, t => by simp [canonDAG.sequentialOps, joinTail]
  | p :: ps, hs, B, t => by
    simp at hs
    have ih := sequentialOps_join ps (by simpa using hs.2)
    simp [canonDAG.sequentialOps, op_DAG p hs.1, ih, joinTail, lead, spaces_zero,
      String.append_assoc]

theorem pend_two : pend 2 false true = "\n  " := by decide

theorem needsparens_top (op : String) : needsparens "" op = false := by
  have h0 : precedence "" = 0 := by decide
  simp [needsparens, h0]

theorem settled_flush (c : canonDAG) (h : c.settled) : c.flush = c := by
  obtain ⟨⟨B, n, t, nT, nR⟩, hd, f⟩ := c
  simp [canonDAG.settled] at h
  simp [flush_mk, pend_zero, h.1, h.2]

theorem settled_write (c : canonDAG) (s : String) : (c.write s).settled := by
  obtain ⟨⟨B, n, t, nT, nR⟩, hd, f⟩ := c
  simp [canonDAG.settled, write_mk]

theorem settled_close (c : canonDAG) (h : c.settled) : c.close.settled := h

theorem settled_open (c : canonDAG) (s : String) : (c.open s).settled := by
  obtain ⟨⟨B, n, t, nT, nR⟩, hd, f⟩ := c
  simp [canonDAG.settled, open_mk]

theorem settled_op (p : Op) (hp : p.endsWithText = true) (c : canonDAG) :
    (c.op p).settled := by
  by_cases hs : p.singleLine = true
  · obtain ⟨⟨B, n, t, nT, nR⟩, hd, f⟩ := c
    rw [op_DAG p hs]
    simp [canonDAG.settled]
  · match p, hp, hs with
    | .Parallel ops, _, _ =>
      simp only [canonDAG.op]
      exact settled_write _ _
    | .Switch e ks, _, _ =>
      simp only [canonDAG.op]
      exact settled_write _ _
    | .From ts, _, _ =>
      simp only [canonDAG.op]
      exact settled_write _ _
    | .unknown k, _, _ =>
      simp only [canonDAG.op]
      exact settled_close _ (settled_open _ _)
    | .nil, _, _ =>
      simp only [canonDAG.op]
      exact settled_close _ (settled_open _ _)
    | .Sequential _, hp, hs => simp [Op.endsWithText, Op.singleLine] at hp
    | .Summarize _ _ _ _ _ _, hp, hs => simp [Op.endsWithText, Op.singleLine] at hp
    | .Merge _ _, hp, hs => simp [Op.endsWithText, hs] at hp
    | .Cut _, hp, hs => simp [Op.endsWithText, hs] at hp
    | .Drop _, hp, hs => simp [Op.endsWithText, hs] at hp
    | .Sort _ _ _, hp, hs => simp [Op.endsWithText, hs] at hp
    | .Head _, hp, hs => simp [Op.endsWithText, hs] at hp
    | .Tail _, hp, hs => simp [Op.endsWithText, hs] at hp
    | .Uniq _, hp, hs => simp [Op.endsWithText, hs] at hp
    | .Pass, hp, hs => simp [Op.endsWithText, hs] at hp
    | .Filter _, hp, hs => simp [Op.endsWithText, hs] at hp
    | .Top _ _ _, hp, hs => simp [Op.endsWithText, hs] at hp
    | .Put _, hp, hs => simp [Op.endsWithText, hs] at hp
    | .Rename _, hp, hs => simp [Op.endsWithText, hs] at hp
    | .Fuse, hp, hs => simp [Op.endsWithText, hs] at hp
    | .Join _ _ _, hp, hs => simp [Op.endsWithText, hs] at hp
    | .Over _, hp, hs => simp [Op.endsWithText, hs] at hp
    | .Yield _, hp, hs => simp [Op.endsWithText, hs] at hp

theorem sequentialOps_append (ops : List Op) (p : Op) : ∀ (c : canonDAG),
    c.sequentialOps (ops ++ [p]) = (c.sequentialOps ops).op p := by
  induction ops with
  | nil => intro c; simp [canonDAG.sequentialOps]
  | cons o os ih => intro c; simp [canonDAG.sequentialOps, ih]

theorem settled_expr (e : Expr) (hr : e.recognized = true) (p : String) (c : canonDAG) :
    (c.expr e p).settled := by
  obtain ⟨⟨B, n, t, nT, nR⟩, hd, f⟩ := c
  obtain ⟨T, hT⟩ := expr_text e hr p
  simp [canonDAG.settled, hT]

theorem spaces_two : spaces 2 = "  " := by decide

theorem expr_exprUnder (e : Expr) (hr : e.recognized = true) (p : String) (B : String)
    (n t : Int) (nT nR h f : Bool) :
    canonDAG.expr ⟨⟨B, n, t, nT, nR⟩, h, f⟩ e p
      = ⟨⟨B ++ (pend n nT nR ++ exprUnder e p), n, t, false, false⟩, h, f⟩ := by
  obtain ⟨T, hT⟩ := expr_text e hr p
  have h1 : exprUnder e p = T := by
    simp [exprUnder, canonDAG.init, hT, flush_mk, pend_zero, canonDAG.string]
  rw [h1, hT]

theorem paramsFrom_join : ∀ (xs : List String) (i : Nat) (B : String) (n t : Int)
    (h f : Bool),
    canonDAG.params ⟨⟨B, n, t, false, false⟩, h, f⟩ i xs
      = ⟨⟨B ++ (if i ≠ 0 then joinTail ", " xs else ", ".intercalate xs), n, t, false,
          false⟩, h, f⟩
  | [], i, B, n, t, h, f => by
    simp [canonDAG.params, joinTail, String.intercalate]
  | x :: xs, i, B, n, t, h, f => by
    have ih := paramsFrom_join xs (i + 1)
    simp only [Nat.succ_ne_zero, ne_eq, not_false_eq_true, if_true] at ih
    by_cases hi : i = 0
    · simp [canonDAG.params, hi, write_mk, joinTail, intercalate_cons, String.append_assoc]
      simpa [hi, String.append_assoc] using ih (B ++ x) n t h f
    · simp [canonDAG.params, hi, write_mk, ih, joinTail, intercalate_cons,
        String.append_assoc]

theorem join_foldl : ∀ (as : List String) (acc : String),
    List.foldl (fun r s => r ++ s) acc as = acc ++ String.join as
  | [], acc => by simp [String.join]
  | a :: as, acc => by
    simp only [List.foldl_cons, String.join]
    rw [join_foldl as (acc ++ a), join_foldl as ("" ++ a)]
    simp [String.join, String.append_assoc]

theorem join_nil : String.join [] = "" := rfl

theorem join_cons (a : String) (as : List String) :
    String.join (a :: as) = a ++ String.join as := by
  simp only [String.join, List.foldl_cons]
  rw [join_foldl]
  simp [String.join]

theorem consts_join : ∀ (ds : List Def), ds.all (fun d => d.Expr.recognized) = true →
    ∀ (B : String) (t : Int) (nR h f : Bool),
      ∃ (B' : String) (nR' : Bool),
        canonDAG.consts ⟨⟨B, 0, t, false, nR⟩, h, f⟩ ds = ⟨⟨B', 0, t, false, nR'⟩, h, f⟩
          ∧ B' ++ pend 0 false nR' = B ++ pend 0 false nR ++ String.join (ds.map constText)
  | [], _, B, t, nR, h, f => ⟨B, nR, by simp [canonDAG.consts, join_nil]⟩
  | d :: ds, hr, B, t, nR, h, f => by
    simp at hr
    obtain ⟨B', nR', h1, h2⟩ := consts_join ds (by simpa using hr.2)
      (B ++ (pend 0 false nR ++ ("const " ++ d.Name ++ " = ")) ++ DAGExpr d.Expr) t true h f
    refine ⟨B', nR', ?_, ?_⟩
    · simp [canonDAG.consts, write_mk, expr_DAGExpr _ hr.1, ret_mk, ← h1,
        String.append_assoc]
    · rw [h2]
      simp [constText, pend_zero, join_cons, String.append_assoc]

theorem funcs_join : ∀ (fs : List Func), fs.all (fun f => f.Expr.recognized) = true →
    ∀ (B : String) (nR h f : Bool),
      ∃ (B' : String) (nR' : Bool),
        canonDAG.funcs ⟨⟨B, 0, 2, false, nR⟩, h, f⟩ fs = ⟨⟨B', 0, 2, false, nR'⟩, h, f⟩
          ∧ B' ++ pend 0 false nR' = B ++ pend 0 false nR ++ String.join (fs.map funcText)
  | [], _, B, nR, h, f => ⟨B, nR, by simp [canonDAG.funcs, join_nil]⟩
  | g :: fs, hr, B, nR, h, f => by
    simp at hr
    obtain ⟨B', nR', h1, h2⟩ := funcs_join fs (by simpa using hr.2)
      (B ++ (pend 0 false nR ++ funcText g)) false h f
    refine ⟨B', nR', ?_, ?_⟩
    · rw [← h1]
      simp [canonDAG.funcs, write_mk, paramsFrom_join, open_mk, expr_exprUnder _ hr.1, ret_mk,
        close_mk, flush_mk, funcText, pend_two, pend_zero, pend, spaces_zero,
        String.append_assoc]
      simp [spaces_two, ← String.append_assoc]
    · rw [h2]
      simp [pend_zero, join_cons, String.append_assoc]

theorem consts_append (ds : List Def) (d : Def) : ∀ (c : canonDAG),
    c.consts (ds ++ [d])
      = (((c.consts ds).write ("const " ++ d.Name ++ " = ")).expr d.Expr "").ret := by
  induction ds with
  | nil => intro c; simp [canonDAG.consts]
  | cons o os ih => intro c; simp [canonDAG.consts, ih]

theorem funcs_append (fs : List Func) (g : Func) : ∀ (c : canonDAG),
    ∃ c' : canonDAG, c.funcs (fs ++ [g]) = c'.write ")\n" := by
  induction fs with
  | nil => intro c; simp only [List.nil_append, canonDAG.funcs]; exact ⟨_, rfl⟩
  | cons o os ih => intro c; simp only [List.cons_append, canonDAG.funcs]; exact ih _

theorem ret_flush_string (c : canonDAG) : (c.ret.flush).string = c.string ++ "\n" := by
  obtain ⟨⟨B, n, t, nT, nR⟩, hd, f⟩ := c
  simp [ret_mk, flush_mk, canonDAG.string]

theorem write_flush_string (c : canonDAG) (s : String) :
    ∃ pre : String, ((c.write s).flush).string = pre ++ s := by
  obtain ⟨⟨B, n, t, nT, nR⟩, hd, f⟩ := c
  exact ⟨B ++ pend n nT nR, by simp [write_mk, flush_mk, canonDAG.string, String.append_assoc]⟩

/-! ## The claims -/

/-- Claim C1 (as the specification states it, refuted): the end-to-end scenario
`from pool p1 | where x>5 | head 10` does not render as the three lines
`from (pool p1)`, `| where x>5`, `| head 10`. -/
theorem C1_three_lines_refuted :
    DAG (pipeline [.From [.mk (.Pool "p1") none .nil],
        .Filter (.BinaryExpr ">" (.This ["x"]) (.Literal "5")), .Head 10])
      ≠ "from (pool p1)\n| where x>5\n| head 10" := by
  decide

/-- Claim C1 (amended): the end-to-end scenario renders as five lines, the
`from` block taking three of them: `from (`, the source `pool p1` indented by
two spaces, `)`, then `| where x>5` and `| head 10`. -/
theorem C1_end_to_end :
    DAG (pipeline [.From [.mk (.Pool "p1") none .nil],
        .Filter (.BinaryExpr ">" (.This ["x"]) (.Literal "5")), .Head 10])
      = "from (\n  pool p1\n)\n| where x>5\n| head 10" := by
  decide

/-- Claim C2 (the code at the failing input): a `Switch` opens two blocks
(`switch ` and `(`) and closes one.  From every state, rendering an operator
tree leaves the indentation deeper by one step for each `Switch` in the tree
(and unchanged when there is none); so after a switch the depth is not
restored, and the operator following a switch in a pipeline is rendered two
spaces to the right. -/
theorem C2_switch_leaves_block_open :
    (∀ (p : Op) (c : canonDAG),
      (c.op p).formatter.indent = c.formatter.indent + c.formatter.tab * p.switches)
    ∧ (∀ c : canonDAG,
      (c.op (.Switch .nil [])).formatter.indent = c.formatter.indent + c.formatter.tab)
    ∧ (canonDAG.init.op (.Switch .nil [.mk .nil (pipeline [.Pass])])).formatter.indent = 2
    ∧ DAG (pipeline [.Switch .nil [.mk .nil (pipeline [.Pass])], .Pass])
        = "switch (\n    default =>\n      pass\n  )\n  | pass" := by
  refine ⟨fun p c => (depth_op p c).2, fun c => ?_, by decide, by decide⟩
  have h := (depth_op (.Switch .nil []) c).2
  simpa [Op.switches, Op.switchesCases] using h

/-- Claim C3: a `.`-binary whose left side is the implicit receiver renders as
its right side alone; `this.a` renders as `a`, and `(this.a).b` renders as the
text of `a`, a dot, and the text of `b`. -/
theorem C3_implicit_receiver_contraction :
    (∀ r : Expr, DAGExpr (.BinaryExpr "." (.This []) r) = DAGExpr r)
    ∧ DAGExpr (.BinaryExpr "." (.This []) (.This ["a"])) = "a"
    ∧ DAGExpr (.BinaryExpr "." (.BinaryExpr "." (.This []) (.This ["a"])) (.This ["b"])) = "a.b"
    ∧ (∀ a b : Expr,
        DAGExpr (.BinaryExpr "." (.BinaryExpr "." (.This []) a) b)
          = DAGExpr a ++ "." ++ DAGExpr b) := by
  refine ⟨fun r => ?_, by decide, by decide, fun a b => ?_⟩
  · simp [DAGExpr, canonDAG.expr, isDAGThis]
  · obtain ⟨Ta, ra, ha⟩ := expr_nf a "" 0
    obtain ⟨Tb, rb, hb⟩ := expr_nf b "" 0
    rw [DAGExpr_nf a Ta ra ha, DAGExpr_nf b Tb rb hb]
    simp [DAGExpr, canonDAG.init, canonDAG.expr, isDAGThis, ha, hb, write_mk, flush_mk, pend_zero,
      canonDAG.string, String.append_assoc]

/-- Claim C4 (as the specification states it, refuted): indexing the implicit
receiver with `0` renders as `.[0]`, which is not `[` ++ index ++ `]`: a dot
is written before the opening bracket. -/
theorem C4_receiver_omitted_refuted :
    DAGExpr (.BinaryExpr "[" (.This []) (.Literal "0")) = ".[0]"
    ∧ DAGExpr (.BinaryExpr "[" (.This []) (.Literal "0"))
        ≠ "[" ++ DAGExpr (.Literal "0") ++ "]" := by
  decide

/-- Claim C4 (amended): a `[`-binary on the implicit receiver renders as a dot
followed by `[index]`; with any other left side it renders as the left side
followed by `[index]`. -/
theorem C4_index_rendering :
    (∀ i : Expr, DAGExpr (.BinaryExpr "[" (.This []) i) = ".[" ++ DAGExpr i ++ "]")
    ∧ (∀ l i : Expr, DAGExpr (.BinaryExpr "[" l i)
        = (if isDAGThis l then "." else DAGExpr l) ++ "[" ++ DAGExpr i ++ "]") := by
  have key : ∀ l i : Expr, DAGExpr (.BinaryExpr "[" l i)
      = (if isDAGThis l then "." else DAGExpr l) ++ "[" ++ DAGExpr i ++ "]" := by
    intro l i
    obtain ⟨Ta, ra, ha⟩ := expr_nf l "" 0
    obtain ⟨Tb, rb, hb⟩ := expr_nf i "" 0
    rw [DAGExpr_nf l Ta ra ha, DAGExpr_nf i Tb rb hb]
    cases hl : isDAGThis l <;>
      simp [DAGExpr, canonDAG.init, canonDAG.expr, hl, ha, hb, write_mk, flush_mk, pend_zero,
        canonDAG.string, String.append_assoc]
  refine ⟨fun i => ?_, key⟩
  have h := key (.This []) i
  simpa [isDAGThis, String.append_assoc] using h

/-- Claim C5 (as the specification states it, refuted): for a filter whose
expression holds a node of unrecognized kind followed by more text, the text
after the placeholder continues on a line indented inside the `where` block, so
the rendering is not `where ` followed by the standalone rendering. -/
theorem C5_any_expression_refuted :
    DAG (.Filter (.Call "f" [.unknown "T", .Var "x"])) = "where f((unknown expr T)\n  , x)"
    ∧ DAG (.Filter (.Call "f" [.unknown "T", .Var "x"]))
        ≠ "where " ++ DAGExpr (.Call "f" [.unknown "T", .Var "x"]) := by
  decide

/-- Claim C5 (amended): a filter on the literal boolean true renders as
`where *`, and a filter on any other expression without a node of unrecognized
kind renders as `where ` followed by the standalone rendering of the
expression. -/
theorem C5_wildcard_filter :
    DAG (.Filter (.Primitive "bool" "true")) = "where *"
    ∧ (∀ e : Expr, e.recognized = true → e ≠ .Primitive "bool" "true" →
        DAG (.Filter e) = "where " ++ DAGExpr e) := by
  refine ⟨by decide, fun e hr hne => ?_⟩
  obtain ⟨T, hT⟩ := expr_text e hr ""
  have h : isDAGTrue e = false := by
    cases h : isDAGTrue e
    · rfl
    · exact absurd ((isDAGTrue_iff e).1 h) hne
  rw [DAGExpr_text e T hT]
  simp [DAG, canonDAG.init, canonDAG.op, h, hT, next_mk, open_mk, close_mk, write_mk, flush_mk, pend_zero,
    canonDAG.string, spaces]

/-- Witness for C5: the amended statement at the filter `where x>5`. -/
theorem C5_wildcard_filter_witness :
    (Expr.BinaryExpr ">" (.This ["x"]) (.Literal "5")).recognized = true
    ∧ Expr.BinaryExpr ">" (.This ["x"]) (.Literal "5") ≠ .Primitive "bool" "true"
    ∧ DAG (.Filter (.BinaryExpr ">" (.This ["x"]) (.Literal "5")))
        = "where " ++ DAGExpr (.BinaryExpr ">" (.This ["x"]) (.Literal "5")) :=
  ⟨by decide, by simp,
    C5_wildcard_filter.2 (.BinaryExpr ">" (.This ["x"]) (.Literal "5")) (by decide) (by simp)⟩

/-- Claim C6: for atomic operands, a product under a sum is rendered without
parentheses (`a*b+c`) and a sum under a product is wrapped in parentheses
(`(a+b)*c`). -/
theorem C6_precedence_fidelity (a b c : Expr) (ha : a.isAtom = true) (hb : b.isAtom = true)
    (hc : c.isAtom = true) :
    DAGExpr (.BinaryExpr "+" (.BinaryExpr "*" a b) c)
        = DAGExpr a ++ "*" ++ DAGExpr b ++ "+" ++ DAGExpr c
    ∧ DAGExpr (.BinaryExpr "*" (.BinaryExpr "+" a b) c)
        = "(" ++ DAGExpr a ++ "+" ++ DAGExpr b ++ ")" ++ "*" ++ DAGExpr c := by
  obtain ⟨Ta, hTa⟩ := atom_expr a ha
  obtain ⟨Tb, hTb⟩ := atom_expr b hb
  obtain ⟨Tc, hTc⟩ := atom_expr c hc
  rw [DAGExpr_atom a Ta hTa, DAGExpr_atom b Tb hTb, DAGExpr_atom c Tc hTc]
  have p1 : needsparens "" "+" = false := by decide
  have p2 : needsparens "+" "*" = false := by decide
  have p3 : needsparens "" "*" = false := by decide
  have p4 : needsparens "*" "+" = true := by decide
  constructor <;>
    simp [DAGExpr, canonDAG.init, canonDAG.expr, canonDAG.maybewrite, p1, p2, p3, p4, hTa, hTb,
      hTc, write_mk, flush_mk, pend_zero, canonDAG.string, String.append_assoc]

/-- Witness for C6: the variables `a`, `b`, `c` give `a*b+c` and `(a+b)*c`. -/
theorem C6_precedence_fidelity_witness :
    DAGExpr (.BinaryExpr "+" (.BinaryExpr "*" (.Var "a") (.Var "b")) (.Var "c")) = "a*b+c"
    ∧ DAGExpr (.BinaryExpr "*" (.BinaryExpr "+" (.Var "a") (.Var "b")) (.Var "c")) = "(a+b)*c" :=
  ⟨(C6_precedence_fidelity (.Var "a") (.Var "b") (.Var "c") rfl rfl rfl).1.trans (by decide),
    (C6_precedence_fidelity (.Var "a") (.Var "b") (.Var "c") rfl rfl rfl).2.trans (by decide)⟩

/-- Claim C7 (as the specification states it, refuted): the right-nested
subtraction `a-(b-c)` is rendered without parentheses, as `a-b-c`, the same
text as the left-nested one. -/
theorem C7_equal_precedence_refuted :
    DAGExpr (.BinaryExpr "-" (.Var "a") (.BinaryExpr "-" (.Var "b") (.Var "c"))) = "a-b-c"
    ∧ DAGExpr (.BinaryExpr "-" (.Var "a") (.BinaryExpr "-" (.Var "b") (.Var "c"))) ≠ "a-(b-c)"
    ∧ DAGExpr (.BinaryExpr "-" (.Var "a") (.BinaryExpr "-" (.Var "b") (.Var "c")))
        = DAGExpr (.BinaryExpr "-" (.BinaryExpr "-" (.Var "a") (.Var "b")) (.Var "c")) := by
  decide

/-- Claim C7 (amended): a binary expression whose operator has the precedence of
the enclosing operator is written without parentheses, as the right operand
and as the left operand alike: for atomic operands and operators of the
default case of `binary`, both nestings render as the three operands
separated by the two operators. -/
theorem C7_equal_precedence_no_parens (o₁ o₂ : String) (a b c : Expr)
    (ha : a.isAtom = true) (hb : b.isAtom = true) (hc : c.isAtom = true)
    (h₁ : o₁ ≠ "." ∧ o₁ ≠ "[" ∧ o₁ ≠ "in" ∧ o₁ ≠ "and" ∧ o₁ ≠ "or")
    (h₂ : o₂ ≠ "." ∧ o₂ ≠ "[" ∧ o₂ ≠ "in" ∧ o₂ ≠ "and" ∧ o₂ ≠ "or")
    (hp : precedence o₂ = precedence o₁) :
    DAGExpr (.BinaryExpr o₁ a (.BinaryExpr o₂ b c))
        = DAGExpr a ++ o₁ ++ DAGExpr b ++ o₂ ++ DAGExpr c
    ∧ DAGExpr (.BinaryExpr o₁ (.BinaryExpr o₂ a b) c)
        = DAGExpr a ++ o₂ ++ DAGExpr b ++ o₁ ++ DAGExpr c := by
  obtain ⟨Ta, hTa⟩ := atom_expr a ha
  obtain ⟨Tb, hTb⟩ := atom_expr b hb
  obtain ⟨Tc, hTc⟩ := atom_expr c hc
  rw [DAGExpr_atom a Ta hTa, DAGExpr_atom b Tb hTb, DAGExpr_atom c Tc hTc]
  have p1 : needsparens "" o₁ = false := needsparens_top o₁
  have p2 : needsparens o₁ o₂ = false := by simp [needsparens, hp]
  have q₁ : ¬(o₁ = "in" ∨ o₁ = "and" ∨ o₁ = "or") := by
    rintro (h | h | h)
    · exact h₁.2.2.1 h
    · exact h₁.2.2.2.1 h
    · exact h₁.2.2.2.2 h
  have q₂ : ¬(o₂ = "in" ∨ o₂ = "and" ∨ o₂ = "or") := by
    rintro (h | h | h)
    · exact h₂.2.2.1 h
    · exact h₂.2.2.2.1 h
    · exact h₂.2.2.2.2 h
  constructor <;>
    simp [DAGExpr, canonDAG.init, canonDAG.expr, canonDAG.maybewrite, p1, p2, h₁.1, h₁.2.1,
      h₂.1, h₂.2.1, q₁, q₂, hTa, hTb, hTc, write_mk, flush_mk, canonDAG.string,
      String.append_assoc]

/-- Witness for C7: subtraction under subtraction with the variables `a`, `b`,
`c` gives `a-b-c` for both nestings. -/
theorem C7_equal_precedence_no_parens_witness :
    DAGExpr (.BinaryExpr "-" (.Var "a") (.BinaryExpr "-" (.Var "b") (.Var "c"))) = "a-b-c"
    ∧ DAGExpr (.BinaryExpr "-" (.BinaryExpr "-" (.Var "a") (.Var "b")) (.Var "c")) = "a-b-c" :=
  ⟨(C7_equal_precedence_no_parens "-" "-" (.Var "a") (.Var "b") (.Var "c") rfl rfl rfl
      (by decide) (by decide) rfl).1.trans (by decide),
    (C7_equal_precedence_no_parens "-" "-" (.Var "a") (.Var "b") (.Var "c") rfl rfl rfl
      (by decide) (by decide) rfl).2.trans (by decide)⟩

/-- Claim C8 (the code at the failing input): in a fork branch and in a switch
case that starts with an operator of unrecognized kind, the operator after it
is rendered without the marker `| `; so is the operator after a `from` whose
pushdown is an empty pipeline.  In branches of operators such as `pass` and
`fuse` the first operator has no marker and the later ones have it. -/
theorem C8_later_operator_without_marker :
    DAG (.Parallel [pipeline [.unknown "*dag.Shape", .Pass]])
      = "fork (\n  =>unknown proc: *dag.Shape\n    pass\n)"
    ∧ DAG (.Switch .nil [.mk .nil (pipeline [.unknown "*dag.Shape", .Pass])])
      = "switch (\n    default =>unknown proc: *dag.Shape\n      pass\n  )"
    ∧ DAG (.Parallel [pipeline [.From [.mk (.Pool "p1") none (pipeline [])], .Pass]])
      = "fork (\n  =>\n    from (\n      (pushdown)\n      pool p1\n    )\n    pass\n)"
    ∧ DAG (.Parallel [pipeline [.Pass, .Fuse], pipeline [.Head 1, .Tail 2]])
      = "fork (\n  =>\n    pass\n    | fuse\n  =>\n    head 1\n    | tail 2\n)" := by
  decide

/-- Claim C9 (the code at the failing input): in a pipeline with a constant
declaration the first operator is written directly behind the constant's
expression, on the same line: the pending newline is dropped by `next`. -/
theorem C9_operator_joins_const_line :
    (∀ (name v : String), DAG (.Sequential (some (.mk [⟨name, .Literal v⟩] [] [.Pass])))
      = "const " ++ name ++ " = " ++ v ++ "pass")
    ∧ DAG (.Sequential (some (.mk [⟨"a", .Literal "1"⟩, ⟨"b", .Literal "2"⟩] [] [.Pass, .Fuse])))
      = "const a = 1\nconst b = 2pass\n| fuse" := by
  refine ⟨fun name v => ?_, by decide⟩
  simp [DAG, canonDAG.init, canonDAG.op, canonDAG.sequential, canonDAG.sequentialOps,
    canonDAG.consts, canonDAG.funcs, canonDAG.expr, next_mk, ret_mk, write_mk, flush_mk, pend_zero,
    canonDAG.string, spaces, String.append_assoc]

/-- Claim C10 (the code at the failing input): an operator of unrecognized kind
does not advance to a new operator line; its placeholder is appended to the
line of the operator before it, without newline and without the marker. -/
theorem C10_unknown_operator_joins_line :
    (∀ kind : String, DAG (pipeline [.Pass, .unknown kind]) = "passunknown proc: " ++ kind)
    ∧ DAG (pipeline [.Pass, .unknown "*dag.Shape", .Fuse])
      = "passunknown proc: *dag.Shape\n| fuse" := by
  refine ⟨fun kind => ?_, by decide⟩
  simp [DAG, pipeline, canonDAG.init, canonDAG.op, canonDAG.sequential, canonDAG.sequentialOps,
    canonDAG.consts, canonDAG.funcs, next_mk, open_mk, close_mk, write_mk, flush_mk, pend_zero,
    canonDAG.string, spaces, String.append_assoc]
  rw [← String.append_assoc]
  rfl

/-- Claim C11: the text of a source descriptor, kind by kind: `file <path>` with
` format <fmt>` when the format is not empty and ` order <layout>` when the
layout is not nil, `get <url>`, `pool <id>`, `pool <id>:<meta>`,
`pool <pool>@<commit>:<meta>`, `:<meta>`, `pass`, `(internal reader)`, and
`unknown source <kind>` for any other kind. -/
theorem C11_source_rendering :
    (∀ (path format : String) (layout : Option String),
      source (.File path format layout)
        = "file " ++ path
          ++ (if format ≠ "" then " format " ++ format else "")
          ++ (match layout with
              | some l => " order " ++ l
              | none => ""))
    ∧ (∀ url : String, source (.HTTP url) = "get " ++ url)
    ∧ (∀ id : String, source (.Pool id) = "pool " ++ id)
    ∧ (∀ id m : String, source (.PoolMeta id m) = "pool " ++ id ++ ":" ++ m)
    ∧ (∀ pool commit m : String,
        source (.CommitMeta pool commit m) = "pool " ++ pool ++ "@" ++ commit ++ ":" ++ m)
    ∧ (∀ m : String, source (.LakeMeta m) = ":" ++ m)
    ∧ source .Pass = "pass"
    ∧ source .Reader = "(internal reader)"
    ∧ (∀ kind : String, source (.unknown kind) = "unknown source " ++ kind) := by
  refine ⟨fun path format layout => ?_, fun _ => rfl, fun _ => rfl, fun _ _ => rfl,
    fun _ _ _ => rfl, fun _ => rfl, rfl, rfl, fun _ => rfl⟩
  cases layout <;> by_cases hf : format = "" <;> simp [source, hf, String.append_assoc]

/-- Claim C12 (as the specification states it, refuted): the rendering of an
expression of unrecognized kind, of a pipeline with only a constant
declaration and of a pipeline with only a function declaration end with a
newline, and so does the rendering of a `Summarize` without aggregates, keys
and limit. -/
theorem C12_trailing_newline_refuted :
    DAGExpr (.unknown "*dag.Foo") = "(unknown expr *dag.Foo)\n"
    ∧ DAG (.Sequential (some (.mk [⟨"a", .Literal "1"⟩] [] []))) = "const a = 1\n"
    ∧ DAG (.Sequential (some (.mk [] [⟨"f", ["x"], .Var "x"⟩] []))) = "func f(x): (\n  x\n)\n"
    ∧ DAG (.Summarize [] [] 0 false false 0) = "summarize\n" := by
  decide

/-- Claim C12 (amended): the final flush of `DAGExpr` and `DAG` changes nothing,
no newline and no indentation being pending, after an expression without a
node of unrecognized kind, after an operator that ends with text of its own,
and after a pipeline whose last operator is one; an expression of unrecognized
kind renders as its placeholder followed by a newline; a pipeline with only
constant declarations, at least one, ends with a newline; a pipeline with only
declarations of which the last is a function declaration ends with `)` and a
newline; and a pipeline with only declarations over expressions of recognized
kinds renders as each `const name = expr` followed by a newline, then each
function as `func name(params): (`, a newline, two spaces, the body, a newline,
`)` and a newline. -/
theorem C12_no_line_break_appended :
    (∀ e : Expr, e.recognized = true →
      (canonDAG.init.expr e "").flush = canonDAG.init.expr e "")
    ∧ (∀ p : Op, p.endsWithText = true → (canonDAG.init.op p).flush = canonDAG.init.op p)
    ∧ (∀ (consts : List Def) (funcs : List Func) (ops : List Op) (p : Op),
        p.endsWithText = true →
        (canonDAG.init.op (.Sequential (some (.mk consts funcs (ops ++ [p]))))).flush
          = canonDAG.init.op (.Sequential (some (.mk consts funcs (ops ++ [p])))))
    ∧ (∀ kind : String, DAGExpr (.unknown kind) = "(unknown expr " ++ kind ++ ")\n")
    ∧ (∀ (consts : List Def) (d : Def),
        ∃ pre : String, DAG (.Sequential (some (.mk (consts ++ [d]) [] []))) = pre ++ "\n")
    ∧ (∀ (consts : List Def) (funcs : List Func) (g : Func),
        ∃ pre : String,
          DAG (.Sequential (some (.mk consts (funcs ++ [g]) []))) = pre ++ ")\n")
    ∧ (∀ (consts : List Def) (funcs : List Func),
        consts.all (fun d => d.Expr.recognized) = true →
        funcs.all (fun g => g.Expr.recognized) = true →
        DAG (.Sequential (some (.mk consts funcs [])))
          = String.join (consts.map constText) ++ String.join (funcs.map funcText)) := by
  refine ⟨fun e hr => settled_flush _ (settled_expr e hr "" _),
    fun p hp => settled_flush _ (settled_op p hp _),
    fun consts funcs ops p hp => settled_flush _ ?_, fun kind => ?_,
    fun consts d => ?_, fun consts funcs g => ?_, fun consts funcs hc hf => ?_⟩
  · simp only [canonDAG.op, canonDAG.sequential, sequentialOps_append]
    exact settled_op p hp _
  · simp [DAGExpr, canonDAG.init, canonDAG.expr, open_mk, close_mk, ret_mk, flush_mk, pend_zero,
      canonDAG.string, pend, spaces_zero, String.append_assoc]
  · have h0 : DAG (.Sequential (some (.mk (consts ++ [d]) [] [])))
        = ((canonDAG.init.consts (consts ++ [d])).flush).string := rfl
    rw [h0, consts_append, ret_flush_string]
    exact ⟨_, rfl⟩
  · have h0 : DAG (.Sequential (some (.mk consts (funcs ++ [g]) [])))
        = (((canonDAG.init.consts consts).funcs (funcs ++ [g])).flush).string := rfl
    obtain ⟨c', hc'⟩ := funcs_append funcs g (canonDAG.init.consts consts)
    rw [h0, hc']
    exact write_flush_string c' _
  · have h0 : DAG (.Sequential (some (.mk consts funcs [])))
        = (((canonDAG.init.consts consts).funcs funcs).flush).string := rfl
    obtain ⟨B₁, r₁, h1, h2⟩ := consts_join consts hc "" 2 false true true
    obtain ⟨B₂, r₂, h3, h4⟩ := funcs_join funcs hf B₁ r₁ true true
    rw [h0]
    simp only [canonDAG.init]
    rw [h1, h3]
    simp [flush_mk, canonDAG.string]
    simp [pend_zero] at h2 h4
    rw [h4, h2]

/-- Witness for C12: the amended statement at the expression `x`, at the
operator `pass`, at the pipeline `const a = 1 ... fuse | pass` and at the
declarations `const a = 1` and `func f(x): (x)` without operators. -/
theorem C12_no_line_break_appended_witness :
    (canonDAG.init.expr (.Var "x") "").flush = canonDAG.init.expr (.Var "x") ""
    ∧ (canonDAG.init.op .Pass).flush = canonDAG.init.op .Pass
    ∧ (canonDAG.init.op (.Sequential (some (.mk [⟨"a", .Literal "1"⟩] [] ([.Fuse] ++ [.Pass]))))).flush
        = canonDAG.init.op (.Sequential (some (.mk [⟨"a", .Literal "1"⟩] [] ([.Fuse] ++ [.Pass]))))
    ∧ DAG (.Sequential (some (.mk [⟨"a", .Literal "1"⟩] [⟨"f", ["x"], .Var "x"⟩] [])))
        = "const a = 1\nfunc f(x): (\n  x\n)\n" :=
  ⟨C12_no_line_break_appended.1 (.Var "x") (by decide),
    C12_no_line_break_appended.2.1 .Pass (by decide),
    C12_no_line_break_appended.2.2.1 [⟨"a", .Literal "1"⟩] [] [.Fuse] .Pass (by decide),
    (C12_no_line_break_appended.2.2.2.2.2.2 [⟨"a", .Literal "1"⟩] [⟨"f", ["x"], .Var "x"⟩]
      (by decide) (by decide)).trans (by decide)⟩

/-- Claim C13 (as the specification states it, refuted): an aggregate whose
optional `expr` slot is nil renders as `count()`, not `count(null)`, and one
whose `where` slot is nil renders without a `where` clause. -/
theorem C13_nil_agg_refuted :
    DAGExpr (.Agg "count" .nil .nil) = "count()"
    ∧ DAGExpr (.Agg "count" .nil .nil) ≠ "count(null)"
    ∧ DAGExpr (.Agg "sum" (.This ["x"]) .nil) = "sum(x)"
    ∧ DAGExpr (.Agg "sum" (.This ["x"]) .nil) ≠ "sum(x) where null" := by
  decide

/-- Claim C13 (amended): a nil expression renders as `null`, also as the
operand of a unary, binary or conditional expression, as a call argument and as
the expression of a filter, a merge or a join key; the optional `expr` and
`where` slots of an aggregate emit nothing when nil (`name()` and no `where`
clause) and the rendered expression otherwise. -/
theorem C13_nil_slots :
    DAGExpr .nil = "null"
    ∧ (∀ op : String, DAGExpr (.UnaryExpr op .nil) = op ++ "null")
    ∧ (∀ op : String, DAGExpr (.BinaryExpr op .nil .nil)
        = if op = "." then "null.null"
          else if op = "[" then "null[null]"
          else if op = "in" ∨ op = "and" ∨ op = "or" then "null " ++ op ++ " null"
          else "null" ++ op ++ "null")
    ∧ DAGExpr (.Conditional .nil .nil .nil) = "(null) ? null : null"
    ∧ (∀ name : String, DAGExpr (.Call name [.nil, .nil]) = name ++ "(null, null)")
    ∧ DAG (.Filter .nil) = "where null"
    ∧ (∀ o : Which, DAG (.Merge .nil o) = "merge null:" ++ o.string)
    ∧ DAG (.Join .nil .nil []) = "join on null=null"
    ∧ (∀ (name : String) (e w : Expr), DAGExpr (.Agg name e w)
        = name ++ "(" ++ (if e.isNil then "" else DAGExpr e) ++ ")"
          ++ (if w.isNil then "" else " where " ++ DAGExpr w)) := by
  refine ⟨by decide, fun op => ?_, fun op => ?_, by decide, fun name => ?_, by decide,
    fun o => ?_, by decide, fun name e w => ?_⟩
  · simp [DAGExpr, canonDAG.init, canonDAG.expr, write_mk, flush_mk, pend_zero, canonDAG.string]
  · by_cases h1 : op = "."
    · subst h1; decide
    · by_cases h2 : op = "["
      · subst h2; decide
      · by_cases h3 : op = "in" ∨ op = "and" ∨ op = "or" <;>
          simp [DAGExpr, canonDAG.init, canonDAG.expr, h1, h2, h3, needsparens_top,
            canonDAG.maybewrite, write_mk, flush_mk, pend_zero, canonDAG.string, String.append_assoc]
        · simp [← String.append_assoc]
  · simp [DAGExpr, canonDAG.init, canonDAG.expr, canonDAG.exprsFrom, write_mk, flush_mk, pend_zero,
      canonDAG.string, String.append_assoc]
  · cases o <;>
      simp [DAG, canonDAG.init, canonDAG.op, canonDAG.expr, next_mk, write_mk, flush_mk, pend_zero,
        canonDAG.string, Which.string, spaces_zero, String.append_assoc]
  · obtain ⟨Te, re, he⟩ := expr_nf e "" 0
    obtain ⟨Tw, rw', hw⟩ := expr_nf w "" 0
    rw [DAGExpr_nf e Te re he, DAGExpr_nf w Tw rw' hw]
    cases hen : e.isNil <;> cases hwn : w.isNil <;>
      simp [DAGExpr, canonDAG.init, canonDAG.expr, hen, hwn, he, hw, write_mk, flush_mk, pend_zero,
        canonDAG.string, String.append_assoc] <;>
      simp [← String.append_assoc]

/-- Claim C18: a pipeline without declarations whose operators are all of
single-line kinds, over expressions of recognized kinds, renders as the
renderings of its operators joined by a newline and the marker `| `: nothing
before the first operator, no indentation and no blank line. -/
theorem C18_pipe_chained_pipeline (ops : List Op) (hs : ops.all Op.singleLine = true) :
    DAG (pipeline ops) = "\n| ".intercalate (ops.map DAG) := by
  cases ops with
  | nil => rfl
  | cons p ps =>
    simp at hs
    have h0 : DAG (pipeline (p :: ps))
        = ((canonDAG.init.op (pipeline (p :: ps))).flush).string := rfl
    rw [h0]
    simp [pipeline, canonDAG.init, canonDAG.op, canonDAG.sequential, canonDAG.consts,
      canonDAG.funcs, canonDAG.sequentialOps, op_DAG p hs.1,
      sequentialOps_join ps (by simpa using hs.2), flush_mk, pend_zero, canonDAG.string, lead,
      spaces_zero, intercalate_cons]

/-- Witness for C18: the pipeline `pass | where x>5 | head 10`. -/
theorem C18_pipe_chained_pipeline_witness :
    DAG (pipeline [.Pass, .Filter (.BinaryExpr ">" (.This ["x"]) (.Literal "5")), .Head 10])
      = "pass\n| where x>5\n| head 10" :=
  (C18_pipe_chained_pipeline
    [.Pass, .Filter (.BinaryExpr ">" (.This ["x"]) (.Literal "5")), .Head 10]
    (by decide)).trans (by decide)

/-- Claim C19 (as the specification states it, refuted): the body of a
`Summarize` is indented by two levels, four spaces, not by one level. -/
theorem C19_one_level_refuted :
    DAG (.Summarize [⟨.This ["c"], .Agg "count" .nil .nil⟩] [⟨.nil, .This ["k"]⟩] 5 true false 1)
      = "summarize partials-in sort-dir 1\n    c:=count() by k -with limit 5"
    ∧ DAG (.Summarize [⟨.This ["c"], .Agg "count" .nil .nil⟩] [⟨.nil, .This ["k"]⟩] 5 true
        false 1)
      ≠ "summarize partials-in sort-dir 1\n  c:=count() by k -with limit 5" := by
  decide

/-- Claim C19 (amended): a `Summarize` over expressions of recognized kinds
renders as `summarize`, the flags ` partials-in`, ` partials-out` and
` sort-dir N` that are set, a newline, then, when there is an aggregate, a key
or a limit, two levels of indentation (four spaces), the aggregate assignments
joined by `,`, ` by ` and the key assignments joined by `,` when there are
keys, and ` -with limit N` when the limit is not zero. -/
theorem C19_summarize_layout (aggs keys : List Assignment) (limit : Int)
    (partialsIn partialsOut : Bool) (inputSortDir : Int)
    (ha : aggs.all Assignment.recognized = true) (hk : keys.all Assignment.recognized = true) :
    DAG (.Summarize aggs keys limit partialsIn partialsOut inputSortDir)
      = "summarize"
        ++ (if partialsIn then " partials-in" else "")
        ++ (if partialsOut then " partials-out" else "")
        ++ (if inputSortDir ≠ 0 then " sort-dir " ++ toString inputSortDir else "")
        ++ "\n"
        ++ (if aggs.length ≠ 0 ∨ keys.length ≠ 0 ∨ limit ≠ 0 then "    " else "")
        ++ ",".intercalate (aggs.map assignmentText)
        ++ (if keys.length ≠ 0 then " by " ++ ",".intercalate (keys.map assignmentText) else "")
        ++ (if limit ≠ 0 then " -with limit " ++ toString limit else "") := by
  have h0 : DAG (.Summarize aggs keys limit partialsIn partialsOut inputSortDir)
      = ((canonDAG.init.op
          (.Summarize aggs keys limit partialsIn partialsOut inputSortDir)).flush).string := rfl
  rw [h0]
  cases aggs with
  | nil =>
    cases keys with
    | nil =>
      cases partialsIn <;> cases partialsOut <;> by_cases hd : inputSortDir ≠ 0 <;>
        by_cases hl : limit ≠ 0 <;>
        simp [canonDAG.init, canonDAG.op, canonDAG.assignments, canonDAG.assignmentsFrom, hd,
          hl, next_mk, write_mk, open_mk, open__mk, close_mk, ret_mk, flush_mk,
          canonDAG.string, pend_four, spaces_zero, String.intercalate,
          String.append_assoc] <;>
        simp [← String.append_assoc]
    | cons k ks =>
      cases partialsIn <;> cases partialsOut <;> by_cases hd : inputSortDir ≠ 0 <;>
        by_cases hl : limit ≠ 0 <;>
        simp [canonDAG.init, canonDAG.op, hd, hl, next_mk, write_mk,
          open_mk, open__mk, close_mk, ret_mk, flush_mk, canonDAG.string, assignments_nil,
          assignments_join (k :: ks) hk, pend_four, spaces_zero, String.intercalate,
          String.append_assoc] <;>
        simp [← String.append_assoc]
  | cons a as =>
    cases partialsIn <;> cases partialsOut <;> by_cases hd : inputSortDir ≠ 0 <;>
      by_cases hks : keys.length ≠ 0 <;> by_cases hl : limit ≠ 0 <;>
      simp [canonDAG.init, canonDAG.op, hd, hks, hl, next_mk, write_mk, open_mk, open__mk,
        close_mk, ret_mk, flush_mk, canonDAG.string, assignments_join_pending a as ha,
        assignments_join keys hk, pend_four, spaces_zero, String.append_assoc] <;>
      simp [← String.append_assoc]

/-- Witness for C19: `summarize c:=count() by k` with the flag `partials-in`,
sort direction 1 and limit 5. -/
theorem C19_summarize_layout_witness :
    DAG (.Summarize [⟨.This ["c"], .Agg "count" .nil .nil⟩] [⟨.nil, .This ["k"]⟩] 5 true false 1)
      = "summarize partials-in sort-dir 1\n    c:=count() by k -with limit 5" :=
  (C19_summarize_layout [⟨.This ["c"], .Agg "count" .nil .nil⟩] [⟨.nil, .This ["k"]⟩] 5 true
    false 1 (by decide) (by decide)).trans (by decide)

/-- Claim C20 (the code at the failing input): after a fork whose last branch
is a nil pipeline, a switch whose last case body is an empty pipeline and a
`from` whose pushdown is an empty pipeline, the flag `head` is still set, and
the operator following the block in the pipeline is rendered without the
marker `| `; after a block whose last branch has an operator the marker is
written. -/
theorem C20_head_flag_leaks :
    (∀ c : canonDAG, (c.op (.Parallel [.Sequential none])).head = true)
    ∧ (∀ c : canonDAG, (c.op (.Switch .nil [.mk .nil (pipeline [])])).head = true)
    ∧ (∀ (c : canonDAG) (src : Source),
        (c.op (.From [.mk src none (pipeline [])])).head = true)
    ∧ DAG (pipeline [.Parallel [pipeline [.Fuse], .Sequential none], .Pass])
        = "fork (\n  =>\n    fuse\n  =>\n)\npass"
    ∧ DAG (pipeline [.Switch .nil [.mk .nil (pipeline [])], .Pass])
        = "switch (\n    default =>\n  )\n  pass"
    ∧ DAG (pipeline [.From [.mk (.Pool "p1") none (pipeline [])], .Pass])
        = "from (\n  (pushdown)\n  pool p1\n)\npass"
    ∧ DAG (pipeline [.Parallel [pipeline [.Fuse]], .Pass])
        = "fork (\n  =>\n    fuse\n)\n| pass" := by
  refine ⟨?_, ?_, ?_, by decide, by decide, by decide, by decide⟩
  · rintro ⟨⟨B, n, t, nT, nR⟩, h, f⟩
    simp [canonDAG.op, canonDAG.parallelOps, next_mk, open_mk, open__mk, close_mk, ret_mk, flush_mk, pend_zero,
      write_mk]
  · rintro ⟨⟨B, n, t, nT, nR⟩, h, f⟩
    simp [canonDAG.op, canonDAG.switchCases, canonDAG.sequential, canonDAG.sequentialOps,
      canonDAG.consts, canonDAG.funcs, pipeline, Expr.isNil, next_mk, open_mk, open__mk, close_mk,
      ret_mk, flush_mk, pend_zero, write_mk]
  · rintro ⟨⟨B, n, t, nT, nR⟩, h, f⟩ src
    simp [canonDAG.op, canonDAG.fromTrunks, canonDAG.sequential, canonDAG.sequentialOps,
      canonDAG.consts, canonDAG.funcs, pipeline, Op.isNil, next_mk, open_mk, open__mk, close_mk,
      ret_mk, flush_mk, pend_zero, write_mk]

end zfmt

/-! # Query flags: the claims -/

namespace queryflags

/-- Claim C17 (as the specification states it, refuted): `isYield` holds of a
pipeline of three operators whose first operator is a yield. -/
theorem C17_many_operators_refuted :
    isYield (⟨fun _ => false, fun _ => none, fun _ _ => .error "", fun _ => false,
        fun _ => false⟩ : Env String)
      (.Sequential [.Yield ["1"], .other "*ast.Head", .other "*ast.Sort"]) = true := by
  decide

/-- Claim C17 (amended): `isYield` holds of a proc exactly when it is a
`Sequential` of at least one operator whose first operator is a yield, or a
bare expression that is neither a search nor a boolean expression; the
operators after the first are not looked at. -/
theorem C17_isYield_first_operator {E : Type} (env : Env E) (op : Proc E) :
    isYield env op = true ↔
      ∃ (first : Proc E) (rest : List (Proc E)), op = .Sequential (first :: rest)
        ∧ ((∃ exprs, first = .Yield exprs)
          ∨ (∃ e, first = .OpExpr e ∧ env.IsSearch e = false ∧ env.IsBool e = false)) := by
  constructor
  · intro h
    match op, h with
    | .Sequential (.Yield exprs :: rest), _ => exact ⟨_, rest, rfl, Or.inl ⟨exprs, rfl⟩⟩
    | .Sequential (.OpExpr e :: rest), h =>
      simp [isYield] at h
      exact ⟨_, rest, rfl, Or.inr ⟨e, rfl, h.1, h.2⟩⟩
    | .Sequential (.nil :: rest), h => simp [isYield] at h
    | .Sequential (.Sequential _ :: rest), h => simp [isYield] at h
    | .Sequential (.other _ :: rest), h => simp [isYield] at h
    | .Sequential [], h => simp [isYield] at h
    | .nil, h => simp [isYield] at h
    | .Yield _, h => simp [isYield] at h
    | .OpExpr _, h => simp [isYield] at h
    | .other _, h => simp [isYield] at h
  · rintro ⟨first, rest, rfl, h | h⟩
    · obtain ⟨exprs, rfl⟩ := h
      simp [isYield]
    · obtain ⟨e, rfl, h1, h2⟩ := h
      simp [isYield, h1, h2]

/-- Claim C16: with one positional argument that is neither an existing file nor
a URL of a known scheme, the result is the empty list of paths, the parsed
query and the flag set when the argument parses and `isYield` holds of the
query, and the error `no such file` otherwise, also when parsing failed; and
the flag is set in no other successful result. -/
theorem C16_lone_argument {E : Type} (env : Env E) (f : Flags) (s : String)
    (hfile : env.FileExists s = false)
    (hurl : isURLWithKnownScheme env s ["http", "https", "s3"] = false) :
    (ParseSourcesAndInputs env f [s]
      = match env.ParseProc s f.Includes with
        | .ok query =>
          if isYield env query then .ok ([], query, true) else .error ("no such file: " ++ s)
        | .error _ => .error ("no such file: " ++ s))
    ∧ (∀ (paths ps : List String) (query : Proc E),
        ParseSourcesAndInputs env f paths = .ok (ps, query, true) →
          ∃ s', paths = [s'] ∧ ps = [] ∧ env.FileExists s' = false
            ∧ isURLWithKnownScheme env s' ["http", "https", "s3"] = false
            ∧ env.ParseProc s' f.Includes = .ok query ∧ isYield env query = true) := by
  constructor
  · simp only [ParseSourcesAndInputs, hfile, hurl]
    cases hp : env.ParseProc s f.Includes with
    | error err => simp
    | ok query => cases hy : isYield env query <;> simp [hy]
  · intro paths ps query h
    match paths, h with
    | [], h =>
      simp only [ParseSourcesAndInputs] at h
      cases hp : env.ParseProc "" f.Includes <;> simp [hp] at h
    | [p0], h =>
      simp only [ParseSourcesAndInputs] at h
      by_cases hc : (!env.FileExists p0 && !isURLWithKnownScheme env p0 ["http", "https", "s3"]) = true
      · simp only [hc] at h
        cases hp : env.ParseProc p0 f.Includes with
        | error err => simp [hp] at h
        | ok q =>
          cases hy : isYield env q
          · simp [hp, hy] at h
          · simp [hp, hy] at h
            simp at hc
            exact ⟨p0, rfl, h.1, hc.1, hc.2, by rw [← h.2]; exact hp, by rw [← h.2]; exact hy⟩
      · simp only [hc] at h
        cases hp : env.ParseProc "" f.Includes <;> simp [hp] at h
    | p0 :: p1 :: rest, h =>
      simp only [ParseSourcesAndInputs] at h
      by_cases hc : (!env.FileExists p0 && !isURLWithKnownScheme env p0 ["http", "https", "s3"]) = true
      · simp only [hc] at h
        cases hp : env.ParseProc p0 f.Includes <;> simp [hp] at h
      · simp only [hc] at h
        cases hp : env.ParseProc "" f.Includes <;> simp [hp] at h

/-- Witness for C16: the argument `yield 1`, in an environment without files
where it parses to a pipeline of one yield. -/
theorem C16_lone_argument_witness :
    ParseSourcesAndInputs
        (⟨fun _ => false, fun _ => some "",
          fun s _ => if s = "yield 1" then .ok (.Sequential [.Yield ["1"]]) else .error "syntax",
          fun _ => false, fun _ => false⟩ : Env String)
        ⟨false, false, []⟩ ["yield 1"]
      = .ok ([], .Sequential [.Yield ["1"]], true) :=
  (C16_lone_argument
    (⟨fun _ => false, fun _ => some "",
      fun s _ => if s = "yield 1" then .ok (.Sequential [.Yield ["1"]]) else .error "syntax",
      fun _ => false, fun _ => false⟩ : Env String)
    ⟨false, false, []⟩ "yield 1" rfl rfl).1.trans rfl

end queryflags

/-! # The function `nest_dotted`: the claims -/

namespace function

theorem keyed_new (B : Type) (U : TypeRecord → Prop) : (NewNestDotted B).keyed U := by
  intro r _ h
  exact absurd rfl h

theorem lookup_keyed {B : Type} (K : Collab B) (U : TypeRecord → Prop) (hU : Interned U)
    (n : NestDotted B) (hn : n.keyed U) (r : TypeRecord) (hr : U r) :
    (n.lookupBuilderAndType K r).1.keyed U := by
  unfold NestDotted.lookupBuilderAndType
  cases hb : n.builders r.ID with
  | some b => exact hn
  | none =>
    simp only
    cases hf : foundDotted r with
    | false => simpa using hn
    | true =>
      simp only [Bool.not_true, Bool.false_eq_true, if_false]
      cases hnb : K.NewRecordBuilder (r.Columns.map (fun c => Dotted c.Name)) with
      | error err => exact hn
      | ok b =>
        intro r' hr' h'
        by_cases hid : r'.ID = r.ID
        · have : r' = r := hU r' r hr' hr hid
          rw [this]
          exact hf
        · simp [hid] at h'
          exact hn r' hr' h'

theorem call_keyed {B : Type} (K : Collab B) (U : TypeRecord → Prop) (hU : Interned U)
    (n : NestDotted B) (hn : n.keyed U) (v : Value)
    (hv : ∀ r, TypeRecordOf v.Type_ = some r → U r) :
    (n.Call K [v]).1.keyed U := by
  unfold NestDotted.Call
  simp only
  cases hr : TypeRecordOf v.Type_ with
  | none => exact hn
  | some r =>
    have hk := lookup_keyed K U hU n hn r (hv r hr)
    simp only
    rcases hl : n.lookupBuilderAndType K r with ⟨n', res⟩
    rw [hl] at hk
    cases res with
    | error err => exact hk
    | ok pr =>
      obtain ⟨b, typ⟩ := pr
      cases b with
      | none => exact hk
      | some b =>
        simp only
        cases K.Encode b v.Bytes <;> exact hk

theorem after_keyed {B : Type} (K : Collab B) (U : TypeRecord → Prop) (hU : Interned U) :
    ∀ (vs : List Value) (n : NestDotted B), n.keyed U → TypesIn U vs → (n.after K vs).keyed U
  | [], _, hn, _ => hn
  | v :: vs, n, hn, hvs =>
    after_keyed K U hU vs _
      (call_keyed K U hU n hn v (hvs v (List.mem_cons_self _ _)))
      (fun x hx => hvs x (List.mem_cons_of_mem _ hx))

theorem foundDotted_false (r : TypeRecord)
    (h : ∀ c ∈ r.Columns, (Dotted c.Name).length ≤ 1) : foundDotted r = false := by
  unfold foundDotted
  rw [List.any_eq_false]
  intro c hc
  have := h c hc
  simp
  omega

theorem call_plain {B : Type} (K : Collab B) (n : NestDotted B) (v : Value)
    (rest : List Value) (r : TypeRecord) (hr : TypeRecordOf v.Type_ = some r)
    (hb : n.builders r.ID = none) (hf : foundDotted r = false) :
    n.Call K (v :: rest) = (n, .returns v) := by
  simp [NestDotted.Call, hr, NestDotted.lookupBuilderAndType, hb, hf]

theorem keyed_plain {B : Type} (U : TypeRecord → Prop) (n : NestDotted B) (hn : n.keyed U)
    (r : TypeRecord) (hr : U r) (hf : foundDotted r = false) : n.builders r.ID = none := by
  by_contra h
  have := hn r hr h
  rw [hf] at this
  exact Bool.false_ne_true this

/-- Claim C14: in every state reached from `NewNestDotted` by calls on values
whose record types come from one context (the ID determines the type), `Call`
on a record value whose type has no dotted column name returns the value itself
and leaves the caches as they are; so a second application to a result without
dotted top-level names returns that result and changes nothing. -/
theorem C14_identity_without_dotted_names {B : Type} (K : Collab B) (U : TypeRecord → Prop)
    (hU : Interned U) (history : List Value) (hh : TypesIn U history) (v : Value)
    (rest : List Value) (r : TypeRecord) (hr : TypeRecordOf v.Type_ = some r) (hUr : U r)
    (hnd : ∀ c ∈ r.Columns, (Dotted c.Name).length ≤ 1) :
    ((NewNestDotted B).after K history).Call K (v :: rest)
        = ((NewNestDotted B).after K history, .returns v)
    ∧ (∀ (w w₁ : Value) (n₁ : NestDotted B) (r₁ : TypeRecord),
        (∀ r', TypeRecordOf w.Type_ = some r' → U r') →
        ((NewNestDotted B).after K history).Call K [w] = (n₁, .returns w₁) →
        TypeRecordOf w₁.Type_ = some r₁ → U r₁ →
        (∀ c ∈ r₁.Columns, (Dotted c.Name).length ≤ 1) →
        n₁.Call K [w₁] = (n₁, .returns w₁)) := by
  have hk := after_keyed K U hU history _ (keyed_new B U) hh
  refine ⟨call_plain K _ v rest r hr
    (keyed_plain U _ hk r hUr (foundDotted_false r hnd)) (foundDotted_false r hnd), ?_⟩
  intro w w₁ n₁ r₁ hw hcall hr₁ hUr₁ hnd₁
  have hk₁ := call_keyed K U hU _ hk w hw
  rw [hcall] at hk₁
  exact call_plain K n₁ w₁ [] r₁ hr₁
    (keyed_plain U n₁ hk₁ r₁ hUr₁ (foundDotted_false r₁ hnd₁)) (foundDotted_false r₁ hnd₁)

/-- Claim C15 (as the specification states it, refuted): on a record value with
dotted names whose encoding fails (here a value with fewer items than
columns, with a builder that checks the number of values), `Call` panics with
the error instead of returning an error value. -/
theorem C15_never_panics_refuted :
    ((NewNestDotted Nat).Call
        (⟨fun fields => .ok fields.length, fun _ _ => [], fun cols => .mk 0 cols,
          fun b items => if items.length = b then .ok items
            else .error "record builder: wrong number of values"⟩ : Collab Nat)
        [⟨.Record (.mk 7 [.mk "a.b" (.other 1), .mk "a.c" (.other 1)]), [[1]]⟩]).2
      = .panics "record builder: wrong number of values" :=
  rfl

/-- Claim C15 (amended): a failure to construct the record builder is returned
as the error value `unflatten: <error>`, with the caches unchanged; a failure
to encode the rebuilt record is not returned, `Call` panics with it, with a
new builder as with a cached one. -/
theorem C15_encode_error_panics {B : Type} (K : Collab B) (n : NestDotted B) (v : Value)
    (rest : List Value) (r : TypeRecord) (hr : TypeRecordOf v.Type_ = some r) :
    (∀ err : String, n.builders r.ID = none → foundDotted r = true →
        K.NewRecordBuilder (r.Columns.map (fun c => Dotted c.Name)) = .error err →
        n.Call K (v :: rest) = (n, .returns (NewError ("unflatten: " ++ err))))
    ∧ (∀ (b : B) (err : String), n.builders r.ID = none → foundDotted r = true →
        K.NewRecordBuilder (r.Columns.map (fun c => Dotted c.Name)) = .ok b →
        K.Encode b v.Bytes = .error err →
        (n.Call K (v :: rest)).2 = .panics err)
    ∧ (∀ (b : B) (err : String), n.builders r.ID = some b →
        K.Encode b v.Bytes = .error err →
        n.Call K (v :: rest) = (n, .panics err)) := by
  refine ⟨fun err hb hf he => ?_, fun b err hb hf he hen => ?_, fun b err hb hen => ?_⟩
  · simp [NestDotted.Call, hr, NestDotted.lookupBuilderAndType, hb, hf, he]
  · simp [NestDotted.Call, hr, NestDotted.lookupBuilderAndType, hb, hf, he, hen]
  · simp [NestDotted.Call, hr, NestDotted.lookupBuilderAndType, hb, hen]

/-- Witness for C14: a fresh `NestDotted` and a record with the single column
`a`. -/
theorem C14_identity_without_dotted_names_witness :
    ((NewNestDotted Unit).after
        (⟨fun _ => .ok (), fun _ _ => [], fun cols => .mk 0 cols, fun _ b => .ok b⟩ :
          Collab Unit) []).Call
        (⟨fun _ => .ok (), fun _ _ => [], fun cols => .mk 0 cols, fun _ b => .ok b⟩ :
          Collab Unit)
        [⟨.Record (.mk 7 [.mk "a" (.other 1)]), [[1]]⟩]
      = ((NewNestDotted Unit).after
          (⟨fun _ => .ok (), fun _ _ => [], fun cols => .mk 0 cols, fun _ b => .ok b⟩ :
            Collab Unit) [],
        .returns ⟨.Record (.mk 7 [.mk "a" (.other 1)]), [[1]]⟩) :=
  (C14_identity_without_dotted_names
    (⟨fun _ => .ok (), fun _ _ => [], fun cols => .mk 0 cols, fun _ b => .ok b⟩ : Collab Unit)
    (fun r => r = .mk 7 [.mk "a" (.other 1)])
    (fun r₁ r₂ h₁ h₂ _ => h₁.trans h₂.symm) []
    (fun v hv => absurd hv (List.not_mem_nil v))
    ⟨.Record (.mk 7 [.mk "a" (.other 1)]), [[1]]⟩ []
    (.mk 7 [.mk "a" (.other 1)]) rfl rfl (by decide)).1

/-- Witness for C15: a builder constructor that fails with `duplicate field`. -/
theorem C15_encode_error_panics_witness :
    (NewNestDotted Unit).Call
        (⟨fun _ => .error "duplicate field", fun _ _ => [], fun cols => .mk 0 cols,
          fun _ b => .ok b⟩ : Collab Unit)
        [⟨.Record (.mk 7 [.mk "a.b" (.other 1)]), [[1]]⟩]
      = (NewNestDotted Unit, .returns (NewError "unflatten: duplicate field")) :=
  (C15_encode_error_panics
    (⟨fun _ => .error "duplicate field", fun _ _ => [], fun cols => .mk 0 cols,
      fun _ b => .ok b⟩ : Collab Unit)
    (NewNestDotted Unit) ⟨.Record (.mk 7 [.mk "a.b" (.other 1)]), [[1]]⟩ []
    (.mk 7 [.mk "a.b" (.other 1)]) rfl).1 "duplicate field" rfl (by decide) rfl

end function
